import Mathlib

set_option linter.unnecessarySeqFocus false

/-!
Verification of the eth-cl-reftests-viewer repository.

Shallow embedding of the repository's core logic:
* `scripts/prepare.js`   — path parsing (`parseTestPath`), manifest
  construction (`buildManifest`), version registry (`updateVersionsFile`);
* `scripts/deserialize_missing.js` — companion-file resolution
  (`findSSZFiles`, `deserializeSingleFile`, the batch loop);
* `js/tree.js`           — fork ordering comparator, `filterTree`,
  `showNodeAndAncestors`;
* `js/main.js`           — `onTestSelect` progressive file-pairing logic.

JavaScript objects with string keys preserve insertion order, so nested
manifest objects are embedded as insertion-ordered association lists.
Machine integers do not overflow in any of the modelled code paths, so
numbers are embedded as `Nat`/`Int`.
-/

namespace RefViewer

/-! ### Association lists with JavaScript object semantics

`obj[k] = v` on a plain JS object updates the value in place when the key
exists (keeping its position) and appends the key at the end otherwise.
-/

/-- Look up a key in an insertion-ordered association list. -/
def findVal {α : Type} (k : String) : List (String × α) → Option α
  | [] => none
  | (k', v) :: rest => if k' = k then some v else findVal k rest

/-- `upsert m k d f`: if `k` is present with value `v`, replace it by `f v`
in place; otherwise append `(k, f d)` at the end.  This is the JS pattern
`if (!m[k]) m[k] = d; ⟨mutate m[k] by f⟩`. -/
def upsert {α : Type} (k : String) (d : α) (f : α → α) :
    List (String × α) → List (String × α)
  | [] => [(k, f d)]
  | (k', v) :: rest =>
    if k' = k then (k, f v) :: rest else (k', v) :: upsert k d f rest

theorem findVal_upsert_self {α : Type} (k : String) (d : α) (f : α → α)
    (m : List (String × α)) :
    findVal k (upsert k d f m) = some (f ((findVal k m).getD d)) := by
  induction m with
  | nil => simp [upsert, findVal]
  | cons hd tl ih =>
    obtain ⟨k', v⟩ := hd
    by_cases h : k' = k
    · subst h
      simp [upsert, findVal]
    · simp [upsert, findVal, h, ih]

theorem findVal_upsert_ne {α : Type} {k k' : String} (hne : k' ≠ k)
    (d : α) (f : α → α) (m : List (String × α)) :
    findVal k' (upsert k d f m) = findVal k' m := by
  induction m with
  | nil => simp [upsert, findVal, Ne.symm hne]
  | cons hd tl ih =>
    obtain ⟨k'', v⟩ := hd
    by_cases h : k'' = k
    · subst h
      simp [upsert, findVal, Ne.symm hne]
    · by_cases h' : k'' = k'
      · subst h'
        simp [upsert, findVal, h]
      · simp [upsert, findVal, h, h', ih]

/-! ### prepare.js — `parseTestPath`

```js
const parts = testPath.split(path.sep);
if (parts.length < 7) { return null; }
return { preset: parts[1], fork: parts[2], testType: parts[3],
         testSuite: parts[4], config: parts[5], testCase: parts[6] };
```
A test path is embedded as its list of segments (the result of the split).
-/

structure HierarchyKey where
  preset : String
  fork : String
  testType : String
  testSuite : String
  config : String
  testCase : String
deriving DecidableEq, Repr

def parseTestPath (parts : List String) : Option HierarchyKey :=
  if parts.length < 7 then
    none
  else
    some { preset := parts.getD 1 ""
           fork := parts.getD 2 ""
           testType := parts.getD 3 ""
           testSuite := parts.getD 4 ""
           config := parts.getD 5 ""
           testCase := parts.getD 6 "" }

/-! ### prepare.js — `buildManifest`

The nested manifest object, with each JS object embedded as an
insertion-ordered association list.
-/

/-- One record produced by `findTestCases`: a relative path (as segments)
together with the file names found in the directory. -/
structure TestCaseRecord where
  path : List String
  files : List String
deriving DecidableEq, Repr

/-- One entry pushed into `configs[config].tests`. -/
structure TestEntry where
  name : String
  files : List String
  path : List String
deriving DecidableEq, Repr

structure ConfigData where
  tests : List TestEntry
deriving DecidableEq, Repr

structure SuiteData where
  configs : List (String × ConfigData)
  testCount : Nat
deriving DecidableEq, Repr

structure TestTypeData where
  testSuites : List (String × SuiteData)
deriving DecidableEq, Repr

structure ForkData where
  testTypes : List (String × TestTypeData)
deriving DecidableEq, Repr

structure PresetData where
  forks : List (String × ForkData)
deriving DecidableEq, Repr

structure Manifest where
  presets : List (String × PresetData)
  totalTests : Nat
deriving DecidableEq, Repr

/-- Effect of one accepted record on the suite level: push the entry into
`configs[config].tests` and increment `testCount` (the two mutations at the
end of the `buildManifest` loop body, together with the lazy `configs`
initialization). -/
def addToSuite (config : String) (e : TestEntry) (sd : SuiteData) : SuiteData :=
  { configs := upsert config ⟨[]⟩ (fun cd => ⟨cd.tests ++ [e]⟩) sd.configs
    testCount := sd.testCount + 1 }

def addToTestType (testSuite config : String) (e : TestEntry)
    (ttd : TestTypeData) : TestTypeData :=
  { testSuites := upsert testSuite ⟨[], 0⟩ (addToSuite config e) ttd.testSuites }

def addToFork (testType testSuite config : String) (e : TestEntry)
    (fd : ForkData) : ForkData :=
  { testTypes := upsert testType ⟨[]⟩ (addToTestType testSuite config e) fd.testTypes }

def addToPreset (fork testType testSuite config : String) (e : TestEntry)
    (pd : PresetData) : PresetData :=
  { forks := upsert fork ⟨[]⟩ (addToFork testType testSuite config e) pd.forks }

/-- One iteration of the `buildManifest` loop: parse the path; on failure
warn and `continue`; on success lazily create the nested levels, push the
test entry, and increment the suite `testCount`. -/
def addRecord (m : Manifest) (r : TestCaseRecord) : Manifest :=
  match parseTestPath r.path with
  | none => m
  | some k =>
    { m with presets :=
        (upsert k.preset ⟨[]⟩
          (addToPreset k.fork k.testType k.testSuite k.config
            ⟨k.testCase, r.files, r.path⟩) m.presets) }

def buildManifestAux (m : Manifest) : List TestCaseRecord → Manifest
  | [] => m
  | r :: rs => buildManifestAux (addRecord m r) rs

/-- `buildManifest`: `stats.totalTests` is set to the raw input length
before the loop; the loop then folds every record in. -/
def buildManifest (testCases : List TestCaseRecord) : Manifest :=
  buildManifestAux { presets := [], totalTests := testCases.length } testCases

theorem findVal_upsert_isSome {α : Type} (k k' : String) (d : α) (f : α → α)
    (m : List (String × α)) :
    (findVal k' (upsert k d f m)).isSome =
      ((findVal k' m).isSome || decide (k = k')) := by
  by_cases h : k = k'
  · subst h
    rw [findVal_upsert_self]
    simp
  · rw [findVal_upsert_ne (Ne.symm h)]
    simp [h]

theorem sum_map_upsert {α : Type} (g : α → Nat) (k : String) (d : α)
    (f : α → α) (c : Nat) (m : List (String × α)) (hd : g d = 0)
    (hf : ∀ v, g (f v) = g v + c) :
    ((upsert k d f m).map (fun kv => g kv.2)).sum =
      (m.map (fun kv => g kv.2)).sum + c := by
  induction m with
  | nil => simp [upsert, hf, hd]
  | cons hd' tl ih =>
    obtain ⟨k'', v⟩ := hd'
    by_cases h : k'' = k
    · subst h
      simp [upsert, hf]
      omega
    · simp [upsert, h, ih]
      omega

/-! ### Observations on a manifest

Option chains reading the nested association lists, and the predicates on
input records that characterize what `buildManifest` stores where.
-/

def presetOf (m : Manifest) (p : String) : Option PresetData :=
  findVal p m.presets

def forkOf (m : Manifest) (p f : String) : Option ForkData :=
  (presetOf m p).bind fun pd => findVal f pd.forks

def testTypeOf (m : Manifest) (p f tt : String) : Option TestTypeData :=
  (forkOf m p f).bind fun fd => findVal tt fd.testTypes

def suiteOf (m : Manifest) (p f tt ts : String) : Option SuiteData :=
  (testTypeOf m p f tt).bind fun ttd => findVal ts ttd.testSuites

def configOf (m : Manifest) (p f tt ts c : String) : Option ConfigData :=
  (suiteOf m p f tt ts).bind fun sd => findVal c sd.configs

/-- The `testCount` recorded at a suite node (0 when the node is absent). -/
def suiteCount (m : Manifest) (p f tt ts : String) : Nat :=
  ((suiteOf m p f tt ts).map SuiteData.testCount).getD 0

/-- Number of test-case entries reachable under a suite node. -/
def sdLen (sd : SuiteData) : Nat :=
  (sd.configs.map (fun kv => kv.2.tests.length)).sum

def suiteLen (m : Manifest) (p f tt ts : String) : Nat :=
  ((suiteOf m p f tt ts).map sdLen).getD 0

/-- The `tests` sequence stored at a config node. -/
def configTests (m : Manifest) (p f tt ts c : String) : List TestEntry :=
  ((configOf m p f tt ts c).map ConfigData.tests).getD []

/-- Does an input record land under preset `p`, fork `f`, test type `tt`,
suite `ts`? -/
def recMatches4 (p f tt ts : String) (r : TestCaseRecord) : Bool :=
  match parseTestPath r.path with
  | none => false
  | some k =>
    decide (k.preset = p ∧ k.fork = f ∧ k.testType = tt ∧ k.testSuite = ts)

/-- The entry a record contributes to config node `(p, f, tt, ts, c)`. -/
def recEntry5 (p f tt ts c : String) (r : TestCaseRecord) : Option TestEntry :=
  match parseTestPath r.path with
  | none => none
  | some k =>
    if k.preset = p ∧ k.fork = f ∧ k.testType = tt ∧ k.testSuite = ts
        ∧ k.config = c then
      some ⟨k.testCase, r.files, r.path⟩
    else
      none

/-- A generic reading of a suite node through a `Nat`-valued measure. -/
def suiteMeas (g : SuiteData → Nat) (m : Manifest) (p f tt ts : String) : Nat :=
  ((suiteOf m p f tt ts).map g).getD 0

/-! Per-level step lemmas, generic over any suite measure that the
per-record update increments by exactly one. -/

theorem sMeas_addToTestType (g : SuiteData → Nat) (ts' c : String)
    (e : TestEntry) (hg1 : ∀ sd, g (addToSuite c e sd) = g sd + 1)
    (hg0 : g ⟨[], 0⟩ = 0) (ttd : TestTypeData) (ts : String) :
    ((findVal ts (addToTestType ts' c e ttd).testSuites).map g).getD 0 =
      ((findVal ts ttd.testSuites).map g).getD 0 +
        (if ts' = ts then 1 else 0) := by
  unfold addToTestType
  by_cases h : ts' = ts
  · subst h
    rw [findVal_upsert_self]
    cases hv : findVal ts' ttd.testSuites <;> simp [hv, hg1, hg0]
  · rw [findVal_upsert_ne (Ne.symm h)]
    simp [h]

theorem sMeas_addToFork (g : SuiteData → Nat) (tt' ts' c : String)
    (e : TestEntry) (hg1 : ∀ sd, g (addToSuite c e sd) = g sd + 1)
    (hg0 : g ⟨[], 0⟩ = 0) (fd : ForkData) (tt ts : String) :
    (((findVal tt (addToFork tt' ts' c e fd).testTypes).bind fun ttd =>
        findVal ts ttd.testSuites).map g).getD 0 =
      (((findVal tt fd.testTypes).bind fun ttd =>
        findVal ts ttd.testSuites).map g).getD 0 +
        (if tt' = tt ∧ ts' = ts then 1 else 0) := by
  unfold addToFork
  by_cases h : tt' = tt
  · subst h
    rw [findVal_upsert_self]
    cases hv : findVal tt' fd.testTypes
    · simpa [hv, findVal] using sMeas_addToTestType g ts' c e hg1 hg0 ⟨[]⟩ ts
    · simpa [hv] using sMeas_addToTestType g ts' c e hg1 hg0 _ ts
  · rw [findVal_upsert_ne (Ne.symm h)]
    simp [h]

theorem sMeas_addToPreset (g : SuiteData → Nat) (f' tt' ts' c : String)
    (e : TestEntry) (hg1 : ∀ sd, g (addToSuite c e sd) = g sd + 1)
    (hg0 : g ⟨[], 0⟩ = 0) (pd : PresetData) (f tt ts : String) :
    ((((findVal f (addToPreset f' tt' ts' c e pd).forks).bind fun fd =>
        findVal tt fd.testTypes).bind fun ttd =>
        findVal ts ttd.testSuites).map g).getD 0 =
      ((((findVal f pd.forks).bind fun fd =>
        findVal tt fd.testTypes).bind fun ttd =>
        findVal ts ttd.testSuites).map g).getD 0 +
        (if f' = f ∧ tt' = tt ∧ ts' = ts then 1 else 0) := by
  unfold addToPreset
  by_cases h : f' = f
  · subst h
    rw [findVal_upsert_self]
    cases hv : findVal f' pd.forks
    · simpa [hv, findVal] using sMeas_addToFork g tt' ts' c e hg1 hg0 ⟨[]⟩ tt ts
    · simpa [hv] using sMeas_addToFork g tt' ts' c e hg1 hg0 _ tt ts
  · rw [findVal_upsert_ne (Ne.symm h)]
    simp [h]

theorem sMeas_addRecord (g : SuiteData → Nat)
    (hg1 : ∀ c e sd, g (addToSuite c e sd) = g sd + 1) (hg0 : g ⟨[], 0⟩ = 0)
    (m : Manifest) (r : TestCaseRecord) (p f tt ts : String) :
    suiteMeas g (addRecord m r) p f tt ts =
      suiteMeas g m p f tt ts + (if recMatches4 p f tt ts r then 1 else 0) := by
  unfold addRecord recMatches4
  cases hparse : parseTestPath r.path with
  | none => simp
  | some k =>
    unfold suiteMeas suiteOf testTypeOf forkOf presetOf
    by_cases h : k.preset = p
    · subst h
      rw [findVal_upsert_self]
      cases hv : findVal k.preset m.presets
      · simpa [hv, findVal] using
          sMeas_addToPreset g k.fork k.testType k.testSuite k.config
            ⟨k.testCase, r.files, r.path⟩ (hg1 _ _) hg0 ⟨[]⟩ f tt ts
      · simpa [hv] using
          sMeas_addToPreset g k.fork k.testType k.testSuite k.config
            ⟨k.testCase, r.files, r.path⟩ (hg1 _ _) hg0 _ f tt ts
    · rw [findVal_upsert_ne (Ne.symm h)]
      simp [h]

theorem sMeas_buildManifestAux (g : SuiteData → Nat)
    (hg1 : ∀ c e sd, g (addToSuite c e sd) = g sd + 1) (hg0 : g ⟨[], 0⟩ = 0)
    (m : Manifest) (l : List TestCaseRecord) (p f tt ts : String) :
    suiteMeas g (buildManifestAux m l) p f tt ts =
      suiteMeas g m p f tt ts + l.countP (recMatches4 p f tt ts) := by
  induction l generalizing m with
  | nil => simp [buildManifestAux]
  | cons r rs ih =>
    rw [buildManifestAux, ih, sMeas_addRecord g hg1 hg0, List.countP_cons]
    by_cases h : recMatches4 p f tt ts r <;> simp [h] <;> omega

theorem addToSuite_testCount (c : String) (e : TestEntry) (sd : SuiteData) :
    (addToSuite c e sd).testCount = sd.testCount + 1 := rfl

theorem addToSuite_sdLen (c : String) (e : TestEntry) (sd : SuiteData) :
    sdLen (addToSuite c e sd) = sdLen sd + 1 := by
  unfold sdLen addToSuite
  exact sum_map_upsert (fun cd => cd.tests.length) c ⟨[]⟩
    (fun cd => ⟨cd.tests ++ [e]⟩) 1 sd.configs rfl (by simp)

/-! Key membership at each nesting level of the manifest. -/

def hasPreset (m : Manifest) (p : String) : Bool := (presetOf m p).isSome

def hasFork (m : Manifest) (p f : String) : Bool := (forkOf m p f).isSome

def hasTestType (m : Manifest) (p f tt : String) : Bool :=
  (testTypeOf m p f tt).isSome

def hasSuite (m : Manifest) (p f tt ts : String) : Bool :=
  (suiteOf m p f tt ts).isSome

def hasConfig (m : Manifest) (p f tt ts c : String) : Bool :=
  (configOf m p f tt ts c).isSome

def recMatches1 (p : String) (r : TestCaseRecord) : Bool :=
  match parseTestPath r.path with
  | none => false
  | some k => decide (k.preset = p)

def recMatches2 (p f : String) (r : TestCaseRecord) : Bool :=
  match parseTestPath r.path with
  | none => false
  | some k => decide (k.preset = p ∧ k.fork = f)

def recMatches3 (p f tt : String) (r : TestCaseRecord) : Bool :=
  match parseTestPath r.path with
  | none => false
  | some k => decide (k.preset = p ∧ k.fork = f ∧ k.testType = tt)

def recMatches5 (p f tt ts c : String) (r : TestCaseRecord) : Bool :=
  match parseTestPath r.path with
  | none => false
  | some k =>
    decide (k.preset = p ∧ k.fork = f ∧ k.testType = tt ∧ k.testSuite = ts
      ∧ k.config = c)

/-! Composite rung lemmas: `isSome` of the option chain below a node hit by
the per-record update. -/

theorem hasTT_addToFork (tt' ts' c' : String) (e : TestEntry)
    (fd : ForkData) (tt : String) :
    (findVal tt (addToFork tt' ts' c' e fd).testTypes).isSome =
      ((findVal tt fd.testTypes).isSome || decide (tt' = tt)) := by
  unfold addToFork
  exact findVal_upsert_isSome tt' tt ⟨[]⟩ _ fd.testTypes

theorem hasTS_addToTestType (ts' c' : String) (e : TestEntry)
    (ttd : TestTypeData) (ts : String) :
    (findVal ts (addToTestType ts' c' e ttd).testSuites).isSome =
      ((findVal ts ttd.testSuites).isSome || decide (ts' = ts)) := by
  unfold addToTestType
  exact findVal_upsert_isSome ts' ts ⟨[], 0⟩ _ ttd.testSuites

theorem hasTS_addToFork (tt' ts' c' : String) (e : TestEntry)
    (fd : ForkData) (tt ts : String) :
    ((findVal tt (addToFork tt' ts' c' e fd).testTypes).bind fun ttd =>
        findVal ts ttd.testSuites).isSome =
      (((findVal tt fd.testTypes).bind fun ttd =>
        findVal ts ttd.testSuites).isSome || decide (tt' = tt ∧ ts' = ts)) := by
  unfold addToFork
  by_cases h : tt' = tt
  · subst h
    rw [findVal_upsert_self]
    cases hv : findVal tt' fd.testTypes
    · simpa [hv, findVal] using hasTS_addToTestType ts' c' e ⟨[]⟩ ts
    · simpa [hv] using hasTS_addToTestType ts' c' e _ ts
  · rw [findVal_upsert_ne (Ne.symm h)]
    simp [h]

theorem hasC_addToSuite (c' : String) (e : TestEntry) (sd : SuiteData)
    (c : String) :
    (findVal c (addToSuite c' e sd).configs).isSome =
      ((findVal c sd.configs).isSome || decide (c' = c)) := by
  unfold addToSuite
  exact findVal_upsert_isSome c' c ⟨[]⟩ _ sd.configs

theorem hasC_addToTestType (ts' c' : String) (e : TestEntry)
    (ttd : TestTypeData) (ts c : String) :
    ((findVal ts (addToTestType ts' c' e ttd).testSuites).bind fun sd =>
        findVal c sd.configs).isSome =
      (((findVal ts ttd.testSuites).bind fun sd =>
        findVal c sd.configs).isSome || decide (ts' = ts ∧ c' = c)) := by
  unfold addToTestType
  by_cases h : ts' = ts
  · subst h
    rw [findVal_upsert_self]
    cases hv : findVal ts' ttd.testSuites
    · simpa [hv, findVal] using hasC_addToSuite c' e ⟨[], 0⟩ c
    · simpa [hv] using hasC_addToSuite c' e _ c
  · rw [findVal_upsert_ne (Ne.symm h)]
    simp [h]

theorem hasC_addToFork (tt' ts' c' : String) (e : TestEntry)
    (fd : ForkData) (tt ts c : String) :
    (((findVal tt (addToFork tt' ts' c' e fd).testTypes).bind fun ttd =>
        findVal ts ttd.testSuites).bind fun sd =>
        findVal c sd.configs).isSome =
      ((((findVal tt fd.testTypes).bind fun ttd =>
        findVal ts ttd.testSuites).bind fun sd =>
        findVal c sd.configs).isSome ||
          decide (tt' = tt ∧ ts' = ts ∧ c' = c)) := by
  unfold addToFork
  by_cases h : tt' = tt
  · subst h
    rw [findVal_upsert_self]
    cases hv : findVal tt' fd.testTypes
    · simpa [hv, findVal] using hasC_addToTestType ts' c' e ⟨[]⟩ ts c
    · simpa [hv] using hasC_addToTestType ts' c' e _ ts c
  · rw [findVal_upsert_ne (Ne.symm h)]
    simp [h]

/-! Step lemmas for key membership under one `addRecord`. -/

theorem hasPreset_addRecord (m : Manifest) (r : TestCaseRecord) (p : String) :
    hasPreset (addRecord m r) p = (hasPreset m p || recMatches1 p r) := by
  unfold addRecord recMatches1 hasPreset presetOf
  cases hparse : parseTestPath r.path with
  | none => simp
  | some k => simpa using findVal_upsert_isSome k.preset p ⟨[]⟩ _ m.presets

theorem hasFork_addRecord (m : Manifest) (r : TestCaseRecord) (p f : String) :
    hasFork (addRecord m r) p f = (hasFork m p f || recMatches2 p f r) := by
  unfold addRecord recMatches2 hasFork forkOf presetOf
  cases hparse : parseTestPath r.path with
  | none => simp
  | some k =>
    by_cases h : k.preset = p
    · subst h
      rw [findVal_upsert_self]
      cases hv : findVal k.preset m.presets
      · simpa [hv, findVal, addToPreset] using
          findVal_upsert_isSome k.fork f (⟨[]⟩ : ForkData) _ ([])
      · simpa [hv, addToPreset] using
          findVal_upsert_isSome k.fork f (⟨[]⟩ : ForkData) _ _
    · rw [findVal_upsert_ne (Ne.symm h)]
      simp [h]

theorem hasTestType_addRecord (m : Manifest) (r : TestCaseRecord)
    (p f tt : String) :
    hasTestType (addRecord m r) p f tt =
      (hasTestType m p f tt || recMatches3 p f tt r) := by
  unfold addRecord recMatches3 hasTestType testTypeOf forkOf presetOf
  cases hparse : parseTestPath r.path with
  | none => simp
  | some k =>
    by_cases h : k.preset = p
    · subst h
      rw [findVal_upsert_self]
      have step : ∀ pd : PresetData,
          ((findVal f (addToPreset k.fork k.testType k.testSuite k.config
              ⟨k.testCase, r.files, r.path⟩ pd).forks).bind fun fd =>
            findVal tt fd.testTypes).isSome =
          (((findVal f pd.forks).bind fun fd =>
            findVal tt fd.testTypes).isSome ||
              decide (k.fork = f ∧ k.testType = tt)) := by
        intro pd
        unfold addToPreset
        by_cases hf : k.fork = f
        · subst hf
          rw [findVal_upsert_self]
          cases hv : findVal k.fork pd.forks
          · simpa [hv, findVal] using
              hasTT_addToFork k.testType k.testSuite k.config _ ⟨[]⟩ tt
          · simpa [hv] using
              hasTT_addToFork k.testType k.testSuite k.config _ _ tt
        · rw [findVal_upsert_ne (Ne.symm hf)]
          simp [hf]
      cases hv : findVal k.preset m.presets
      · simpa [hv, findVal] using step ⟨[]⟩
      · simpa [hv] using step _
    · rw [findVal_upsert_ne (Ne.symm h)]
      simp [h]

theorem hasSuite_addRecord (m : Manifest) (r : TestCaseRecord)
    (p f tt ts : String) :
    hasSuite (addRecord m r) p f tt ts =
      (hasSuite m p f tt ts || recMatches4 p f tt ts r) := by
  unfold addRecord recMatches4 hasSuite suiteOf testTypeOf forkOf presetOf
  cases hparse : parseTestPath r.path with
  | none => simp
  | some k =>
    by_cases h : k.preset = p
    · subst h
      rw [findVal_upsert_self]
      have step : ∀ pd : PresetData,
          (((findVal f (addToPreset k.fork k.testType k.testSuite k.config
              ⟨k.testCase, r.files, r.path⟩ pd).forks).bind fun fd =>
            findVal tt fd.testTypes).bind fun ttd =>
            findVal ts ttd.testSuites).isSome =
          ((((findVal f pd.forks).bind fun fd =>
            findVal tt fd.testTypes).bind fun ttd =>
            findVal ts ttd.testSuites).isSome ||
              decide (k.fork = f ∧ k.testType = tt ∧ k.testSuite = ts)) := by
        intro pd
        unfold addToPreset
        by_cases hf : k.fork = f
        · subst hf
          rw [findVal_upsert_self]
          cases hv : findVal k.fork pd.forks
          · simpa [hv, findVal] using
              hasTS_addToFork k.testType k.testSuite k.config _ ⟨[]⟩ tt ts
          · simpa [hv] using
              hasTS_addToFork k.testType k.testSuite k.config _ _ tt ts
        · rw [findVal_upsert_ne (Ne.symm hf)]
          simp [hf]
      cases hv : findVal k.preset m.presets
      · simpa [hv, findVal] using step ⟨[]⟩
      · simpa [hv] using step _
    · rw [findVal_upsert_ne (Ne.symm h)]
      simp [h]

theorem hasConfig_addRecord (m : Manifest) (r : TestCaseRecord)
    (p f tt ts c : String) :
    hasConfig (addRecord m r) p f tt ts c =
      (hasConfig m p f tt ts c || recMatches5 p f tt ts c r) := by
  unfold addRecord recMatches5 hasConfig configOf suiteOf testTypeOf forkOf
    presetOf
  cases hparse : parseTestPath r.path with
  | none => simp
  | some k =>
    by_cases h : k.preset = p
    · subst h
      rw [findVal_upsert_self]
      have step : ∀ pd : PresetData,
          ((((findVal f (addToPreset k.fork k.testType k.testSuite k.config
              ⟨k.testCase, r.files, r.path⟩ pd).forks).bind fun fd =>
            findVal tt fd.testTypes).bind fun ttd =>
            findVal ts ttd.testSuites).bind fun sd =>
            findVal c sd.configs).isSome =
          (((((findVal f pd.forks).bind fun fd =>
            findVal tt fd.testTypes).bind fun ttd =>
            findVal ts ttd.testSuites).bind fun sd =>
            findVal c sd.configs).isSome ||
              decide (k.fork = f ∧ k.testType = tt ∧ k.testSuite = ts
                ∧ k.config = c)) := by
        intro pd
        unfold addToPreset
        by_cases hf : k.fork = f
        · subst hf
          rw [findVal_upsert_self]
          cases hv : findVal k.fork pd.forks
          · simpa [hv, findVal] using
              hasC_addToFork k.testType k.testSuite k.config _ ⟨[]⟩ tt ts c
          · simpa [hv] using
              hasC_addToFork k.testType k.testSuite k.config _ _ tt ts c
        · rw [findVal_upsert_ne (Ne.symm hf)]
          simp [hf]
      cases hv : findVal k.preset m.presets
      · simpa [hv, findVal] using step ⟨[]⟩
      · simpa [hv] using step _
    · rw [findVal_upsert_ne (Ne.symm h)]
      simp [h]

/-! Key membership in the built manifest equals an existential over the
input records. -/

theorem hasPreset_spec (l : List TestCaseRecord) (p : String) :
    hasPreset (buildManifest l) p = l.any (recMatches1 p) := by
  have aux : ∀ m rs, hasPreset (buildManifestAux m rs) p =
      (hasPreset m p || rs.any (recMatches1 p)) := by
    intro m rs
    induction rs generalizing m with
    | nil => simp [buildManifestAux]
    | cons r rs ih =>
      rw [buildManifestAux, ih, hasPreset_addRecord, List.any_cons]
      simp [Bool.or_assoc, Bool.or_comm, Bool.or_left_comm]
  simpa [hasPreset, presetOf, findVal, buildManifest] using
    aux { presets := [], totalTests := l.length } l

theorem hasFork_spec (l : List TestCaseRecord) (p f : String) :
    hasFork (buildManifest l) p f = l.any (recMatches2 p f) := by
  have aux : ∀ m rs, hasFork (buildManifestAux m rs) p f =
      (hasFork m p f || rs.any (recMatches2 p f)) := by
    intro m rs
    induction rs generalizing m with
    | nil => simp [buildManifestAux]
    | cons r rs ih =>
      rw [buildManifestAux, ih, hasFork_addRecord, List.any_cons]
      simp [Bool.or_assoc, Bool.or_comm, Bool.or_left_comm]
  simpa [hasFork, forkOf, presetOf, findVal, buildManifest] using
    aux { presets := [], totalTests := l.length } l

theorem hasTestType_spec (l : List TestCaseRecord) (p f tt : String) :
    hasTestType (buildManifest l) p f tt = l.any (recMatches3 p f tt) := by
  have aux : ∀ m rs, hasTestType (buildManifestAux m rs) p f tt =
      (hasTestType m p f tt || rs.any (recMatches3 p f tt)) := by
    intro m rs
    induction rs generalizing m with
    | nil => simp [buildManifestAux]
    | cons r rs ih =>
      rw [buildManifestAux, ih, hasTestType_addRecord, List.any_cons]
      simp [Bool.or_assoc, Bool.or_comm, Bool.or_left_comm]
  simpa [hasTestType, testTypeOf, forkOf, presetOf, findVal,
    buildManifest] using aux { presets := [], totalTests := l.length } l

theorem hasSuite_spec (l : List TestCaseRecord) (p f tt ts : String) :
    hasSuite (buildManifest l) p f tt ts = l.any (recMatches4 p f tt ts) := by
  have aux : ∀ m rs, hasSuite (buildManifestAux m rs) p f tt ts =
      (hasSuite m p f tt ts || rs.any (recMatches4 p f tt ts)) := by
    intro m rs
    induction rs generalizing m with
    | nil => simp [buildManifestAux]
    | cons r rs ih =>
      rw [buildManifestAux, ih, hasSuite_addRecord, List.any_cons]
      simp [Bool.or_assoc, Bool.or_comm, Bool.or_left_comm]
  simpa [hasSuite, suiteOf, testTypeOf, forkOf, presetOf, findVal,
    buildManifest] using aux { presets := [], totalTests := l.length } l

theorem hasConfig_spec (l : List TestCaseRecord) (p f tt ts c : String) :
    hasConfig (buildManifest l) p f tt ts c =
      l.any (recMatches5 p f tt ts c) := by
  have aux : ∀ m rs, hasConfig (buildManifestAux m rs) p f tt ts c =
      (hasConfig m p f tt ts c || rs.any (recMatches5 p f tt ts c)) := by
    intro m rs
    induction rs generalizing m with
    | nil => simp [buildManifestAux]
    | cons r rs ih =>
      rw [buildManifestAux, ih, hasConfig_addRecord, List.any_cons]
      simp [Bool.or_assoc, Bool.or_comm, Bool.or_left_comm]
  simpa [hasConfig, configOf, suiteOf, testTypeOf, forkOf, presetOf, findVal,
    buildManifest] using aux { presets := [], totalTests := l.length } l

/-! Ladder for the `tests` sequence stored at a config node: each accepted
record appends exactly its own entry at its own config node. -/

theorem cfgTests_addToSuite (c' : String) (e : TestEntry) (sd : SuiteData)
    (c : String) :
    ((findVal c (addToSuite c' e sd).configs).map ConfigData.tests).getD [] =
      ((findVal c sd.configs).map ConfigData.tests).getD [] ++
        (if c' = c then [e] else []) := by
  unfold addToSuite
  by_cases h : c' = c
  · subst h
    rw [findVal_upsert_self]
    cases hv : findVal c' sd.configs <;> simp [hv]
  · rw [findVal_upsert_ne (Ne.symm h)]
    simp [h]

theorem cfgTests_addToTestType (ts' c' : String) (e : TestEntry)
    (ttd : TestTypeData) (ts c : String) :
    (((findVal ts (addToTestType ts' c' e ttd).testSuites).bind fun sd =>
        findVal c sd.configs).map ConfigData.tests).getD [] =
      (((findVal ts ttd.testSuites).bind fun sd =>
        findVal c sd.configs).map ConfigData.tests).getD [] ++
        (if ts' = ts ∧ c' = c then [e] else []) := by
  unfold addToTestType
  by_cases h : ts' = ts
  · subst h
    rw [findVal_upsert_self]
    cases hv : findVal ts' ttd.testSuites
    · simpa [hv, findVal] using cfgTests_addToSuite c' e ⟨[], 0⟩ c
    · simpa [hv] using cfgTests_addToSuite c' e _ c
  · rw [findVal_upsert_ne (Ne.symm h)]
    simp [h]

theorem cfgTests_addToFork (tt' ts' c' : String) (e : TestEntry)
    (fd : ForkData) (tt ts c : String) :
    ((((findVal tt (addToFork tt' ts' c' e fd).testTypes).bind fun ttd =>
        findVal ts ttd.testSuites).bind fun sd =>
        findVal c sd.configs).map ConfigData.tests).getD [] =
      ((((findVal tt fd.testTypes).bind fun ttd =>
        findVal ts ttd.testSuites).bind fun sd =>
        findVal c sd.configs).map ConfigData.tests).getD [] ++
        (if tt' = tt ∧ ts' = ts ∧ c' = c then [e] else []) := by
  unfold addToFork
  by_cases h : tt' = tt
  · subst h
    rw [findVal_upsert_self]
    cases hv : findVal tt' fd.testTypes
    · simpa [hv, findVal] using cfgTests_addToTestType ts' c' e ⟨[]⟩ ts c
    · simpa [hv] using cfgTests_addToTestType ts' c' e _ ts c
  · rw [findVal_upsert_ne (Ne.symm h)]
    simp [h]

theorem cfgTests_addToPreset (f' tt' ts' c' : String) (e : TestEntry)
    (pd : PresetData) (f tt ts c : String) :
    (((((findVal f (addToPreset f' tt' ts' c' e pd).forks).bind fun fd =>
        findVal tt fd.testTypes).bind fun ttd =>
        findVal ts ttd.testSuites).bind fun sd =>
        findVal c sd.configs).map ConfigData.tests).getD [] =
      (((((findVal f pd.forks).bind fun fd =>
        findVal tt fd.testTypes).bind fun ttd =>
        findVal ts ttd.testSuites).bind fun sd =>
        findVal c sd.configs).map ConfigData.tests).getD [] ++
        (if f' = f ∧ tt' = tt ∧ ts' = ts ∧ c' = c then [e] else []) := by
  unfold addToPreset
  by_cases h : f' = f
  · subst h
    rw [findVal_upsert_self]
    cases hv : findVal f' pd.forks
    · simpa [hv, findVal] using cfgTests_addToFork tt' ts' c' e ⟨[]⟩ tt ts c
    · simpa [hv] using cfgTests_addToFork tt' ts' c' e _ tt ts c
  · rw [findVal_upsert_ne (Ne.symm h)]
    simp [h]

theorem configTests_addRecord (m : Manifest) (r : TestCaseRecord)
    (p f tt ts c : String) :
    configTests (addRecord m r) p f tt ts c =
      configTests m p f tt ts c ++ (recEntry5 p f tt ts c r).toList := by
  unfold addRecord recEntry5
  cases hparse : parseTestPath r.path with
  | none => simp
  | some k =>
    unfold configTests configOf suiteOf testTypeOf forkOf presetOf
    by_cases h : k.preset = p
    · subst h
      rw [findVal_upsert_self]
      cases hv : findVal k.preset m.presets
      · simpa [hv, findVal, apply_ite Option.toList] using
          cfgTests_addToPreset k.fork k.testType k.testSuite k.config
            ⟨k.testCase, r.files, r.path⟩ ⟨[]⟩ f tt ts c
      · simpa [hv, apply_ite Option.toList] using
          cfgTests_addToPreset k.fork k.testType k.testSuite k.config
            ⟨k.testCase, r.files, r.path⟩ _ f tt ts c
    · rw [findVal_upsert_ne (Ne.symm h)]
      simp [h]

theorem configTests_buildManifestAux (m : Manifest)
    (l : List TestCaseRecord) (p f tt ts c : String) :
    configTests (buildManifestAux m l) p f tt ts c =
      configTests m p f tt ts c ++ l.filterMap (recEntry5 p f tt ts c) := by
  induction l generalizing m with
  | nil => simp [buildManifestAux]
  | cons r rs ih =>
    rw [buildManifestAux, ih, configTests_addRecord, List.filterMap_cons]
    cases h : recEntry5 p f tt ts c r <;> simp [h]

/-- The `tests` sequence at a config node collects exactly the entries of
the accepted records whose parsed key lands there, in input order. -/
theorem configTests_spec (l : List TestCaseRecord) (p f tt ts c : String) :
    configTests (buildManifest l) p f tt ts c =
      l.filterMap (recEntry5 p f tt ts c) := by
  have h := configTests_buildManifestAux
    { presets := [], totalTests := l.length } l p f tt ts c
  simpa [configTests, configOf, suiteOf, testTypeOf, forkOf, presetOf,
    findVal, buildManifest] using h

/-- `testCount` at a suite node counts exactly the accepted records whose
parsed key lands there. -/
theorem suiteCount_spec (l : List TestCaseRecord) (p f tt ts : String) :
    suiteCount (buildManifest l) p f tt ts =
      l.countP (recMatches4 p f tt ts) := by
  have h := sMeas_buildManifestAux SuiteData.testCount
    (fun c e sd => addToSuite_testCount c e sd) rfl
    { presets := [], totalTests := l.length } l p f tt ts
  simpa [suiteCount, suiteMeas, suiteOf, testTypeOf, forkOf, presetOf,
    findVal, buildManifest] using h

/-- The number of test entries reachable under a suite node counts exactly
the accepted records whose parsed key lands there. -/
theorem suiteLen_spec (l : List TestCaseRecord) (p f tt ts : String) :
    suiteLen (buildManifest l) p f tt ts =
      l.countP (recMatches4 p f tt ts) := by
  have h := sMeas_buildManifestAux sdLen
    (fun c e sd => addToSuite_sdLen c e sd) (by simp [sdLen])
    { presets := [], totalTests := l.length } l p f tt ts
  simpa [suiteLen, suiteMeas, suiteOf, testTypeOf, forkOf, presetOf,
    findVal, buildManifest] using h

/-! ### Whole-manifest totals -/

def ttdTotal (g : SuiteData → Nat) (ttd : TestTypeData) : Nat :=
  (ttd.testSuites.map (fun kv => g kv.2)).sum

def fdTotal (g : SuiteData → Nat) (fd : ForkData) : Nat :=
  (fd.testTypes.map (fun kv => ttdTotal g kv.2)).sum

def pdTotal (g : SuiteData → Nat) (pd : PresetData) : Nat :=
  (pd.forks.map (fun kv => fdTotal g kv.2)).sum

def mTotal (g : SuiteData → Nat) (m : Manifest) : Nat :=
  (m.presets.map (fun kv => pdTotal g kv.2)).sum

/-- Sum of all suite-level `testCount` values in the manifest. -/
def totalSuiteCounts (m : Manifest) : Nat := mTotal SuiteData.testCount m

/-- Total number of test entries present anywhere in the manifest. -/
def totalEntriesCount (m : Manifest) : Nat := mTotal sdLen m

theorem ttdTotal_add (g : SuiteData → Nat) (ts' c' : String) (e : TestEntry)
    (hg1 : ∀ sd, g (addToSuite c' e sd) = g sd + 1) (hg0 : g ⟨[], 0⟩ = 0)
    (ttd : TestTypeData) :
    ttdTotal g (addToTestType ts' c' e ttd) = ttdTotal g ttd + 1 := by
  unfold ttdTotal addToTestType
  exact sum_map_upsert g ts' ⟨[], 0⟩ _ 1 ttd.testSuites hg0 hg1

theorem fdTotal_add (g : SuiteData → Nat) (tt' ts' c' : String)
    (e : TestEntry) (hg1 : ∀ sd, g (addToSuite c' e sd) = g sd + 1)
    (hg0 : g ⟨[], 0⟩ = 0) (fd : ForkData) :
    fdTotal g (addToFork tt' ts' c' e fd) = fdTotal g fd + 1 := by
  unfold fdTotal addToFork
  exact sum_map_upsert (ttdTotal g) tt' ⟨[]⟩ _ 1 fd.testTypes
    (by simp [ttdTotal]) (fun v => ttdTotal_add g ts' c' e hg1 hg0 v)

theorem pdTotal_add (g : SuiteData → Nat) (f' tt' ts' c' : String)
    (e : TestEntry) (hg1 : ∀ sd, g (addToSuite c' e sd) = g sd + 1)
    (hg0 : g ⟨[], 0⟩ = 0) (pd : PresetData) :
    pdTotal g (addToPreset f' tt' ts' c' e pd) = pdTotal g pd + 1 := by
  unfold pdTotal addToPreset
  exact sum_map_upsert (fdTotal g) f' ⟨[]⟩ _ 1 pd.forks
    (by simp [fdTotal]) (fun v => fdTotal_add g tt' ts' c' e hg1 hg0 v)

theorem mTotal_addRecord (g : SuiteData → Nat)
    (hg1 : ∀ c e sd, g (addToSuite c e sd) = g sd + 1) (hg0 : g ⟨[], 0⟩ = 0)
    (m : Manifest) (r : TestCaseRecord) :
    mTotal g (addRecord m r) =
      mTotal g m + (if (parseTestPath r.path).isSome then 1 else 0) := by
  unfold addRecord
  cases hparse : parseTestPath r.path with
  | none => simp
  | some k =>
    unfold mTotal
    simpa using sum_map_upsert (pdTotal g) k.preset ⟨[]⟩ _ 1 m.presets
      (by simp [pdTotal]) (fun v => pdTotal_add g _ _ _ _ _ (hg1 _ _) hg0 v)

theorem mTotal_buildManifestAux (g : SuiteData → Nat)
    (hg1 : ∀ c e sd, g (addToSuite c e sd) = g sd + 1) (hg0 : g ⟨[], 0⟩ = 0)
    (m : Manifest) (l : List TestCaseRecord) :
    mTotal g (buildManifestAux m l) =
      mTotal g m + l.countP (fun r => (parseTestPath r.path).isSome) := by
  induction l generalizing m with
  | nil => simp [buildManifestAux]
  | cons r rs ih =>
    rw [buildManifestAux, ih, mTotal_addRecord g hg1 hg0, List.countP_cons]
    by_cases h : (parseTestPath r.path).isSome <;> simp [h] <;> omega

/-- The summed suite counts over the whole built manifest equal the number
of records whose path parses. -/
theorem totalSuiteCounts_spec (l : List TestCaseRecord) :
    totalSuiteCounts (buildManifest l) =
      l.countP (fun r => (parseTestPath r.path).isSome) := by
  have h := mTotal_buildManifestAux SuiteData.testCount
    (fun c e sd => addToSuite_testCount c e sd) rfl
    { presets := [], totalTests := l.length } l
  simpa [totalSuiteCounts, mTotal, buildManifest] using h

/-- The total number of test entries in the built manifest equals the
number of records whose path parses. -/
theorem totalEntriesCount_spec (l : List TestCaseRecord) :
    totalEntriesCount (buildManifest l) =
      l.countP (fun r => (parseTestPath r.path).isSome) := by
  have h := mTotal_buildManifestAux sdLen
    (fun c e sd => addToSuite_sdLen c e sd) (by simp [sdLen])
    { presets := [], totalTests := l.length } l
  simpa [totalEntriesCount, mTotal, buildManifest] using h

/-- `stats.totalTests` is the raw input length. -/
theorem totalTests_spec (l : List TestCaseRecord) :
    (buildManifest l).totalTests = l.length := by
  have aux : ∀ m rs, (buildManifestAux m rs).totalTests = m.totalTests := by
    intro m rs
    induction rs generalizing m with
    | nil => simp [buildManifestAux]
    | cons r rs ih =>
      rw [buildManifestAux, ih]
      unfold addRecord
      cases parseTestPath r.path <;> simp
  simpa [buildManifest] using aux { presets := [], totalTests := l.length } l

/-! ### prepare.js — `updateVersionsFile`

```js
if (!versions.versions.includes(version)) {
  versions.versions.push(version);
  versions.versions.sort().reverse(); // Sort descending (newest first)
}
```
`Array.prototype.sort()` with no comparator orders strings ascending by
code units; the version strings here are ASCII, so this is lexicographic
order on their character lists.
-/

/-- Code-unit lexicographic `≤` on strings, as JS default sort uses. -/
def charsLe : List Char → List Char → Bool
  | [], _ => true
  | _ :: _, [] => false
  | a :: as, b :: bs =>
    if a < b then true else if b < a then false else charsLe as bs

def jsLe (a b : String) : Bool := charsLe a.data b.data

def insertAsc (v : String) : List String → List String
  | [] => [v]
  | x :: xs => if jsLe v x then v :: x :: xs else x :: insertAsc v xs

/-- Ascending code-unit sort (insertion sort), modelling `.sort()`. -/
def sortAsc (l : List String) : List String := l.foldr insertAsc []

/-- The registry update: append the version when absent, then re-sort the
whole list descending; when the version is already present the list is
left untouched. -/
def updateVersions (versions : List String) (version : String) :
    List String :=
  if version ∈ versions then versions
  else (sortAsc (versions ++ [version])).reverse

/-! ### Helper lemmas about `buildManifestAux` -/

theorem buildManifestAux_append (m : Manifest) (l₁ l₂ : List TestCaseRecord) :
    buildManifestAux m (l₁ ++ l₂) = buildManifestAux (buildManifestAux m l₁) l₂ := by
  induction l₁ generalizing m with
  | nil => simp [buildManifestAux]
  | cons r rs ih => rw [List.cons_append, buildManifestAux, buildManifestAux, ih]

/-- The presets object produced by the fold depends only on the starting
presets object, not on `stats`. -/
theorem buildManifestAux_presets_congr (m m' : Manifest)
    (h : m.presets = m'.presets) (l : List TestCaseRecord) :
    (buildManifestAux m l).presets = (buildManifestAux m' l).presets := by
  induction l generalizing m m' with
  | nil => simpa [buildManifestAux] using h
  | cons r rs ih =>
    rw [buildManifestAux, buildManifestAux]
    apply ih
    unfold addRecord
    cases parseTestPath r.path <;> simp [h]

/-! ### Claims C2, C3, C8, C9, C10 -/

/-- C2 counterexample: the claim says parsing succeeds only for paths with
exactly 7 segments, but an 8-segment path parses successfully (segment 7 is
silently ignored), because the code checks `parts.length < 7`, not
`parts.length !== 7`. -/
theorem c2_counterexample :
    parseTestPath
        ["tests", "mainnet", "phase0", "ssz_static", "Validator",
         "ssz_random", "case_0", "extra"] =
      some ⟨"mainnet", "phase0", "ssz_static", "Validator", "ssz_random",
        "case_0"⟩ ∧
    ["tests", "mainnet", "phase0", "ssz_static", "Validator",
         "ssz_random", "case_0", "extra"].length ≠ 7 := by
  constructor
  · rfl
  · decide

/-- C2 (amended): parsing a path into a `HierarchyKey` succeeds exactly
when the path has at least 7 segments; segment 0 is discarded and
segments 1-6 map to preset, fork, testType, testSuite, config,
testCaseName (further segments are ignored); a path with fewer than 7
segments yields a parse failure that `buildManifest` treats as
skip-with-a-warning: the record is dropped and the rest of the input is
still processed, never aborting the run. -/
theorem c2_parseTestPath_spec :
    (∀ parts : List String, (parseTestPath parts).isSome ↔ 7 ≤ parts.length) ∧
    (∀ (parts : List String) (k : HierarchyKey), parseTestPath parts = some k →
      k = ⟨parts.getD 1 "", parts.getD 2 "", parts.getD 3 "", parts.getD 4 "",
        parts.getD 5 "", parts.getD 6 ""⟩) ∧
    (∀ (l₁ l₂ : List TestCaseRecord) (r : TestCaseRecord),
      parseTestPath r.path = none →
      (buildManifest (l₁ ++ r :: l₂)).presets =
        (buildManifest (l₁ ++ l₂)).presets) := by
  refine ⟨?_, ?_, ?_⟩
  · intro parts
    unfold parseTestPath
    by_cases h : parts.length < 7 <;> simp [h] <;> omega
  · intro parts k hk
    unfold parseTestPath at hk
    by_cases h : parts.length < 7 <;> simp [h] at hk
    simp only [List.getD_eq_getElem?_getD]
    exact hk.symm
  · intro l₁ l₂ r hr
    unfold buildManifest
    rw [buildManifestAux_append, buildManifestAux_append]
    have hcongr := buildManifestAux_presets_congr
      { presets := [], totalTests := (l₁ ++ r :: l₂).length }
      { presets := [], totalTests := (l₁ ++ l₂).length } rfl l₁
    have hskip : ∀ m : Manifest, buildManifestAux m (r :: l₂) =
        buildManifestAux m l₂ := by
      intro m
      rw [buildManifestAux]
      unfold addRecord
      rw [hr]
    rw [hskip]
    exact buildManifestAux_presets_congr _ _ hcongr l₂

/-- C2 witness: a 6-segment path fails to parse; dropping such a record
from the middle of a run leaves the resulting presets structure unchanged,
and a 7-segment path parses to its segments. -/
theorem c2_witness :
    (¬ (parseTestPath ["tests", "mainnet", "phase0", "ssz_static",
        "Validator", "ssz_random"]).isSome) ∧
    (buildManifest [⟨["tests", "mainnet", "phase0", "ssz_static",
        "Validator", "ssz_random", "case_0"], ["data.yaml"]⟩,
      ⟨["bad"], []⟩]).presets =
      (buildManifest [⟨["tests", "mainnet", "phase0", "ssz_static",
        "Validator", "ssz_random", "case_0"], ["data.yaml"]⟩]).presets := by
  constructor
  · intro h
    have := (c2_parseTestPath_spec.1 _).mp h
    simp at this
  · exact c2_parseTestPath_spec.2.2
      [⟨["tests", "mainnet", "phase0", "ssz_static", "Validator",
        "ssz_random", "case_0"], ["data.yaml"]⟩] [] ⟨["bad"], []⟩ rfl

/-- C3: `buildManifest` is commutative with respect to input order — for
permuted inputs the built manifests have identical `testCount` values and
identical key sets at every nesting level (preset, fork, testType,
testSuite, config), and the `tests` sequences at each config node have the
same membership (only their order may differ). -/
theorem c3_buildManifest_perm (l₁ l₂ : List TestCaseRecord)
    (hp : l₁.Perm l₂) :
    (∀ p f tt ts, suiteCount (buildManifest l₁) p f tt ts =
      suiteCount (buildManifest l₂) p f tt ts) ∧
    (∀ p, hasPreset (buildManifest l₁) p = hasPreset (buildManifest l₂) p) ∧
    (∀ p f, hasFork (buildManifest l₁) p f = hasFork (buildManifest l₂) p f) ∧
    (∀ p f tt, hasTestType (buildManifest l₁) p f tt =
      hasTestType (buildManifest l₂) p f tt) ∧
    (∀ p f tt ts, hasSuite (buildManifest l₁) p f tt ts =
      hasSuite (buildManifest l₂) p f tt ts) ∧
    (∀ p f tt ts c, hasConfig (buildManifest l₁) p f tt ts c =
      hasConfig (buildManifest l₂) p f tt ts c) ∧
    (∀ p f tt ts c (e : TestEntry),
      e ∈ configTests (buildManifest l₁) p f tt ts c ↔
      e ∈ configTests (buildManifest l₂) p f tt ts c) := by
  have hany : ∀ q : TestCaseRecord → Bool, l₁.any q = l₂.any q := by
    intro q
    rw [Bool.eq_iff_iff, List.any_eq_true, List.any_eq_true]
    constructor
    · rintro ⟨x, hx, hq⟩
      exact ⟨x, hp.mem_iff.mp hx, hq⟩
    · rintro ⟨x, hx, hq⟩
      exact ⟨x, hp.mem_iff.mpr hx, hq⟩
  refine ⟨?_, ?_, ?_, ?_, ?_, ?_, ?_⟩
  · intro p f tt ts
    rw [suiteCount_spec, suiteCount_spec]
    exact hp.countP_eq _
  · intro p
    rw [hasPreset_spec, hasPreset_spec]
    exact hany _
  · intro p f
    rw [hasFork_spec, hasFork_spec]
    exact hany _
  · intro p f tt
    rw [hasTestType_spec, hasTestType_spec]
    exact hany _
  · intro p f tt ts
    rw [hasSuite_spec, hasSuite_spec]
    exact hany _
  · intro p f tt ts c
    rw [hasConfig_spec, hasConfig_spec]
    exact hany _
  · intro p f tt ts c e
    rw [configTests_spec, configTests_spec]
    exact (hp.filterMap _).mem_iff

/-- C3 witness: a concrete two-record input and its swap give the same
suite count and the same preset membership. -/
theorem c3_witness :
    suiteCount (buildManifest
        [⟨["tests", "mainnet", "phase0", "operations", "attestation",
          "pyspec_tests", "case_0"], []⟩,
         ⟨["tests", "minimal", "altair", "operations", "deposit",
          "pyspec_tests", "case_1"], []⟩]) "mainnet" "phase0" "operations"
        "attestation" =
      suiteCount (buildManifest
        [⟨["tests", "minimal", "altair", "operations", "deposit",
          "pyspec_tests", "case_1"], []⟩,
         ⟨["tests", "mainnet", "phase0", "operations", "attestation",
          "pyspec_tests", "case_0"], []⟩]) "mainnet" "phase0" "operations"
        "attestation" ∧
    hasPreset (buildManifest
        [⟨["tests", "mainnet", "phase0", "operations", "attestation",
          "pyspec_tests", "case_0"], []⟩,
         ⟨["tests", "minimal", "altair", "operations", "deposit",
          "pyspec_tests", "case_1"], []⟩]) "minimal" =
      hasPreset (buildManifest
        [⟨["tests", "minimal", "altair", "operations", "deposit",
          "pyspec_tests", "case_1"], []⟩,
         ⟨["tests", "mainnet", "phase0", "operations", "attestation",
          "pyspec_tests", "case_0"], []⟩]) "minimal" := by
  have hperm : List.Perm
      [(⟨["tests", "mainnet", "phase0", "operations", "attestation",
          "pyspec_tests", "case_0"], []⟩ : TestCaseRecord),
       ⟨["tests", "minimal", "altair", "operations", "deposit",
          "pyspec_tests", "case_1"], []⟩]
      [⟨["tests", "minimal", "altair", "operations", "deposit",
          "pyspec_tests", "case_1"], []⟩,
       ⟨["tests", "mainnet", "phase0", "operations", "attestation",
          "pyspec_tests", "case_0"], []⟩] := List.Perm.swap _ _ _
  exact ⟨(c3_buildManifest_perm _ _ hperm).1 _ _ _ _,
    (c3_buildManifest_perm _ _ hperm).2.1 _⟩

/-- C8: in every built manifest, `testCount` at a suite node equals the
number of test-case entries reachable under that node, and equals the
number of accepted input records whose parsed key lands there (one
increment per accepted entry); the empty input yields an empty presets
mapping with `totalTests = 0`. -/
theorem c8_testCount_invariant :
    (∀ (l : List TestCaseRecord) (p f tt ts : String),
      suiteCount (buildManifest l) p f tt ts =
        suiteLen (buildManifest l) p f tt ts ∧
      suiteCount (buildManifest l) p f tt ts =
        l.countP (recMatches4 p f tt ts)) ∧
    (buildManifest []).presets = [] ∧ (buildManifest []).totalTests = 0 := by
  refine ⟨fun l p f tt ts => ⟨?_, suiteCount_spec l p f tt ts⟩, rfl, rfl⟩
  rw [suiteCount_spec, suiteLen_spec]

/-- C10 (implicit): `stats.totalTests` is the raw input length, counted
before path validation; hence with at least one unparseable record it
strictly exceeds both the sum of all suite-level `testCount` values and
the number of test-case entries present in the manifest. -/
theorem c10_totalTests_overcounts (l : List TestCaseRecord)
    (h : ∃ r ∈ l, parseTestPath r.path = none) :
    (buildManifest l).totalTests = l.length ∧
    totalSuiteCounts (buildManifest l) < (buildManifest l).totalTests ∧
    totalEntriesCount (buildManifest l) < (buildManifest l).totalTests := by
  obtain ⟨r, hr, hfail⟩ := h
  have hne : l.countP (fun r => (parseTestPath r.path).isSome) ≠ l.length := by
    intro heq
    have := (List.countP_eq_length.mp heq) r hr
    rw [hfail] at this
    simp at this
  have hlt : l.countP (fun r => (parseTestPath r.path).isSome) < l.length :=
    lt_of_le_of_ne (List.countP_le_length _) hne
  refine ⟨totalTests_spec l, ?_, ?_⟩
  · rw [totalSuiteCounts_spec, totalTests_spec]
    exact hlt
  · rw [totalEntriesCount_spec, totalTests_spec]
    exact hlt

/-- C10 witness: one good record and one 2-segment record; the totals come
out as 2 > 1. -/
theorem c10_witness :
    (buildManifest [⟨["tests", "mainnet", "phase0", "operations",
        "attestation", "pyspec_tests", "case_0"], []⟩,
      ⟨["tests", "oops"], []⟩]).totalTests = 2 ∧
    totalSuiteCounts (buildManifest [⟨["tests", "mainnet", "phase0",
        "operations", "attestation", "pyspec_tests", "case_0"], []⟩,
      ⟨["tests", "oops"], []⟩]) <
      (buildManifest [⟨["tests", "mainnet", "phase0", "operations",
        "attestation", "pyspec_tests", "case_0"], []⟩,
      ⟨["tests", "oops"], []⟩]).totalTests := by
  have h := c10_totalTests_overcounts
    [⟨["tests", "mainnet", "phase0", "operations", "attestation",
      "pyspec_tests", "case_0"], []⟩, ⟨["tests", "oops"], []⟩]
    ⟨⟨["tests", "oops"], []⟩, by simp, rfl⟩
  exact ⟨h.1, h.2.1⟩

/-- C9: appending `"v1.6.0"` to a registry holding `["v1.5.0",
"v1.6.0-beta.0"]` yields exactly the three versions with no duplicate,
sorted descending (code-unit lexicographic) as a whole; appending an
already-present version leaves the registry unchanged. -/
theorem c9_updateVersions_spec :
    (updateVersions ["v1.5.0", "v1.6.0-beta.0"] "v1.6.0" =
      ["v1.6.0-beta.0", "v1.6.0", "v1.5.0"]) ∧
    (updateVersions ["v1.5.0", "v1.6.0-beta.0"] "v1.6.0").Nodup ∧
    ("v1.5.0" ∈ updateVersions ["v1.5.0", "v1.6.0-beta.0"] "v1.6.0" ∧
     "v1.6.0-beta.0" ∈ updateVersions ["v1.5.0", "v1.6.0-beta.0"] "v1.6.0" ∧
     "v1.6.0" ∈ updateVersions ["v1.5.0", "v1.6.0-beta.0"] "v1.6.0") ∧
    (updateVersions ["v1.5.0", "v1.6.0-beta.0"] "v1.6.0").Pairwise
      (fun a b => jsLe b a = true) ∧
    (∀ (vs : List String) (v : String), v ∈ vs →
      updateVersions vs v = vs) := by
  refine ⟨by decide, by decide, by decide, by decide, ?_⟩
  intro vs v hv
  unfold updateVersions
  simp [hv]

/-- C9 witness: appending a version already present leaves the concrete
registry unchanged. -/
theorem c9_witness :
    updateVersions ["v1.6.0", "v1.5.0"] "v1.5.0" = ["v1.6.0", "v1.5.0"] :=
  c9_updateVersions_spec.2.2.2.2 ["v1.6.0", "v1.5.0"] "v1.5.0" (by decide)

/-! ### tree.js — fork ordering comparator

The identical comparator literal appears in `buildForkFilters` and
`buildForkNodes`:

```js
const forkOrder = ['phase0','altair','bellatrix','capella','deneb',
                   'electra','fulu'];
const aIsEip = a.startsWith('eip');
const bIsEip = b.startsWith('eip');
if (aIsEip && !bIsEip) return 1;
if (!aIsEip && bIsEip) return -1;
const aIndex = forkOrder.indexOf(a);
const bIndex = forkOrder.indexOf(b);
if (aIndex !== -1 && bIndex !== -1) return aIndex - bIndex;
if (aIndex !== -1) return -1;
if (bIndex !== -1) return 1;
return a.localeCompare(b);
```

`localeCompare` on the ASCII fork names used here is plain lexicographic
comparison; it is embedded as the sign of code-unit comparison.
-/

def forkOrder : List String :=
  ["phase0", "altair", "bellatrix", "capella", "deneb", "electra", "fulu"]

def jsStartsWith (s pre : String) : Bool := pre.data.isPrefixOf s.data

def jsIndexOfAux (x : String) : List String → Int → Int
  | [], _ => -1
  | y :: ys, i => if y = x then i else jsIndexOfAux x ys (i + 1)

/-- `Array.prototype.indexOf`: first index of `x`, `-1` when absent. -/
def jsIndexOf (l : List String) (x : String) : Int := jsIndexOfAux x l 0

/-- Sign-normalized string comparison (model of `localeCompare` on the
ASCII names involved). -/
def strCompare (a b : String) : Int :=
  if a = b then 0 else if jsLe a b then -1 else 1

def forkCompare (a b : String) : Int :=
  let aIsEip := jsStartsWith a "eip"
  let bIsEip := jsStartsWith b "eip"
  if aIsEip && !bIsEip then 1
  else if !aIsEip && bIsEip then -1
  else
    let aIndex := jsIndexOf forkOrder a
    let bIndex := jsIndexOf forkOrder b
    if aIndex ≠ -1 ∧ bIndex ≠ -1 then aIndex - bIndex
    else if aIndex ≠ -1 then -1
    else if bIndex ≠ -1 then 1
    else strCompare a b

theorem jsIndexOfAux_eq_neg_one_iff (x : String) (l : List String) (i : Int)
    (hi : 0 ≤ i) : jsIndexOfAux x l i = -1 ↔ x ∉ l := by
  induction l generalizing i with
  | nil => simp [jsIndexOfAux]
  | cons y ys ih =>
    unfold jsIndexOfAux
    by_cases h : y = x
    · subst h
      rw [if_pos rfl]
      constructor
      · intro hcon
        omega
      · intro hcon
        exact absurd (List.mem_cons_self y ys) hcon

    · rw [if_neg h, ih (i + 1) (by omega)]
      simp only [List.mem_cons, not_or]
      constructor
      · intro hx
        exact ⟨fun hxy => h hxy.symm, hx⟩
      · intro hx
        exact hx.2

theorem jsIndexOf_eq_neg_one_iff (l : List String) (x : String) :
    jsIndexOf l x = -1 ↔ x ∉ l :=
  jsIndexOfAux_eq_neg_one_iff x l 0 le_rfl

theorem eip_not_mem_forkOrder (x : String) (h : jsStartsWith x "eip" = true) :
    x ∉ forkOrder := by
  intro hmem
  simp only [forkOrder, List.mem_cons, List.not_mem_nil, or_false] at hmem
  rcases hmem with rfl | rfl | rfl | rfl | rfl | rfl | rfl <;>
    exact absurd h (by decide)

/-- C7: the fork ordering comparator (used for both the fork filter
buttons and the fork tree nodes) behaves as: both eip*-prefixed →
alphabetical; exactly one eip*-prefixed → the eip name sorts last;
neither eip and both in the canonical list → by canonical index; exactly
one in the canonical list → the known name sorts first; neither known →
alphabetical. -/
theorem c7_forkCompare_spec (a b : String) :
    (jsStartsWith a "eip" = true → jsStartsWith b "eip" = true →
      forkCompare a b = strCompare a b) ∧
    (jsStartsWith a "eip" = true → jsStartsWith b "eip" = false →
      forkCompare a b = 1) ∧
    (jsStartsWith a "eip" = false → jsStartsWith b "eip" = true →
      forkCompare a b = -1) ∧
    (jsStartsWith a "eip" = false → jsStartsWith b "eip" = false →
      a ∈ forkOrder → b ∈ forkOrder →
      forkCompare a b = jsIndexOf forkOrder a - jsIndexOf forkOrder b) ∧
    (jsStartsWith a "eip" = false → jsStartsWith b "eip" = false →
      a ∈ forkOrder → b ∉ forkOrder → forkCompare a b = -1) ∧
    (jsStartsWith a "eip" = false → jsStartsWith b "eip" = false →
      a ∉ forkOrder → b ∈ forkOrder → forkCompare a b = 1) ∧
    (jsStartsWith a "eip" = false → jsStartsWith b "eip" = false →
      a ∉ forkOrder → b ∉ forkOrder → forkCompare a b = strCompare a b) := by
  refine ⟨?_, ?_, ?_, ?_, ?_, ?_, ?_⟩
  · intro ha hb
    have hna : jsIndexOf forkOrder a = -1 :=
      (jsIndexOf_eq_neg_one_iff _ _).mpr (eip_not_mem_forkOrder a ha)
    have hnb : jsIndexOf forkOrder b = -1 :=
      (jsIndexOf_eq_neg_one_iff _ _).mpr (eip_not_mem_forkOrder b hb)
    simp [forkCompare, ha, hb, hna, hnb]
  · intro ha hb
    simp [forkCompare, ha, hb]
  · intro ha hb
    simp [forkCompare, ha, hb]
  · intro ha hb hma hmb
    have hia : jsIndexOf forkOrder a ≠ -1 := by
      rw [Ne, jsIndexOf_eq_neg_one_iff]
      simpa using hma
    have hib : jsIndexOf forkOrder b ≠ -1 := by
      rw [Ne, jsIndexOf_eq_neg_one_iff]
      simpa using hmb
    simp [forkCompare, ha, hb, hia, hib]
  · intro ha hb hma hmb
    have hia : jsIndexOf forkOrder a ≠ -1 := by
      rw [Ne, jsIndexOf_eq_neg_one_iff]
      simpa using hma
    have hib : jsIndexOf forkOrder b = -1 :=
      (jsIndexOf_eq_neg_one_iff _ _).mpr hmb
    simp [forkCompare, ha, hb, hia, hib]
  · intro ha hb hma hmb
    have hia : jsIndexOf forkOrder a = -1 :=
      (jsIndexOf_eq_neg_one_iff _ _).mpr hma
    have hib : jsIndexOf forkOrder b ≠ -1 := by
      rw [Ne, jsIndexOf_eq_neg_one_iff]
      simpa using hmb
    simp [forkCompare, ha, hb, hia, hib]
  · intro ha hb hma hmb
    have hia : jsIndexOf forkOrder a = -1 :=
      (jsIndexOf_eq_neg_one_iff _ _).mpr hma
    have hib : jsIndexOf forkOrder b = -1 :=
      (jsIndexOf_eq_neg_one_iff _ _).mpr hmb
    simp [forkCompare, ha, hb, hia, hib]

/-- C7 witness: an eip fork sorts after a canonical fork; a canonical fork
sorts before an unknown non-eip fork. -/
theorem c7_witness :
    forkCompare "eip9999" "phase0" = 1 ∧
    forkCompare "deneb" "unknownfork" = -1 := by
  constructor
  · exact (c7_forkCompare_spec "eip9999" "phase0").2.1 (by decide) (by decide)
  · exact (c7_forkCompare_spec "deneb" "unknownfork").2.2.2.2.1 (by decide)
      (by decide) (by decide) (by decide)

/-! ### deserialize_missing.js — companion resolution

String predicates taken from the source:
* `findSSZFiles` keeps names with `entry.name.endsWith('.ssz_snappy') &&
  !entry.name.endsWith('.ssz_snappy.yaml')`;
* the work-set filter skips `sszFile.includes('/tests/general/')` and
  files whose companion `sszFile.replace('.ssz_snappy',
  '.ssz_snappy.yaml')` already exists (`String.prototype.replace` with a
  string pattern replaces only the first occurrence).
The recursive directory walk is embedded as the list of all file paths in
the tree; `findSSZFiles` is then the filter below over that list.
-/

def endsWith (s suffix : String) : Bool := suffix.data.isSuffixOf s.data

def isSszFile (name : String) : Bool :=
  endsWith name ".ssz_snappy" && !endsWith name ".ssz_snappy.yaml"

def listIsInfixOf (pat : List Char) : List Char → Bool
  | [] => pat.isEmpty
  | c :: tl => pat.isPrefixOf (c :: tl) || listIsInfixOf pat tl

def jsIncludes (s sub : String) : Bool := listIsInfixOf sub.data s.data

def isGeneralPath (name : String) : Bool := jsIncludes name "/tests/general/"

/-- `String.prototype.replace` with a string pattern: replace the first
occurrence only. -/
def replaceFirst (pat repl : List Char) : List Char → List Char
  | [] => []
  | c :: cs =>
    if pat.isPrefixOf (c :: cs) then repl ++ (c :: cs).drop pat.length
    else c :: replaceFirst pat repl cs

def jsReplace (s pat repl : String) : String :=
  ⟨replaceFirst pat.data repl.data s.data⟩

def yamlCompanionName (sszFile : String) : String :=
  jsReplace sszFile ".ssz_snappy" ".ssz_snappy.yaml"

/-- The work set: all ssz files, minus general-directory files, minus
files whose companion already exists on disk. -/
def filesToProcess (allFiles : List String) : List String :=
  (allFiles.filter isSszFile).filter
    (fun f => !isGeneralPath f && !(allFiles.contains (yamlCompanionName f)))

/-! `deserializeSingleFile`: classification of one decode invocation.

```js
catch (error) {
  const exitCode = error.code || error.exitCode || (error.killed ? null : 1);
  if (exitCode === 2) { return { status: 'skipped' }; }
  else { return { status: 'error', error }; }
}
```
-/

/-- The rejection value thrown by `execAsync`: exit code fields (absent or
zero are falsy) and the killed flag set on timeout. -/
structure ExecError where
  code : Option Int
  exitCode : Option Int
  killed : Bool
  stdout : String
  stderr : String
deriving DecidableEq, Repr

/-- JS `a || b` on number-or-null values: `0`, `null` and `undefined` are
falsy. -/
def jsOrNum : Option Int → Option Int → Option Int
  | some n, b => if n ≠ 0 then some n else b
  | none, b => b

def effectiveExitCode (e : ExecError) : Option Int :=
  jsOrNum e.code (jsOrNum e.exitCode (if e.killed then none else some 1))

inductive DecodeStatus where
  | success
  | skipped
  | error
deriving DecidableEq, Repr

def classifyDecode (res : Except ExecError Unit) : DecodeStatus :=
  match res with
  | .ok _ => .success
  | .error e => if effectiveExitCode e = some 2 then .skipped else .error

/-! The batch loop's result aggregation: one forward pass incrementing one
of three counters per result; an `error` result only increments
`errorCount` and the iteration continues. -/

def tallyStep (acc : Nat × Nat × Nat) (s : DecodeStatus) : Nat × Nat × Nat :=
  match s with
  | .success => (acc.1 + 1, acc.2.1, acc.2.2)
  | .skipped => (acc.1, acc.2.1 + 1, acc.2.2)
  | .error => (acc.1, acc.2.1, acc.2.2 + 1)

def tally (l : List DecodeStatus) : Nat × Nat × Nat :=
  l.foldl tallyStep (0, 0, 0)

theorem tally_eq_counts (l : List DecodeStatus) :
    tally l = (l.countP (· = .success), l.countP (· = .skipped),
      l.countP (· = .error)) := by
  have aux : ∀ (l : List DecodeStatus) (acc : Nat × Nat × Nat),
      l.foldl tallyStep acc =
        (acc.1 + l.countP (· = .success), acc.2.1 + l.countP (· = .skipped),
          acc.2.2 + l.countP (· = .error)) := by
    intro l
    induction l with
    | nil => intro acc; simp
    | cons s rest ih =>
      intro acc
      rw [List.foldl_cons, ih]
      cases s <;> simp [tallyStep, List.countP_cons] <;> omega
  rw [tally, aux]
  simp

/-- Modelled from the spec: the decode subprocess contract
(`deserialize_ssz.py` is not part of this repository) — exit code 0 means
success and the companion file is written at the given output path; exit
code 2 (intentional skip) and every error outcome write nothing.  One
resolver run therefore extends the file tree with exactly the companions
of the successfully decoded work-set files. -/
def runResolver (allFiles : List String) (decode : String → DecodeStatus) :
    List String :=
  allFiles ++ (filesToProcess allFiles).filterMap
    (fun f => if decode f = .success then some (yamlCompanionName f) else none)

/-- C5: a decode exit code of 2 is classified `skipped` (counted
separately, contributing zero to `errorCount`, and — by the subprocess
contract — leaving no companion file behind); any other non-zero exit
code, and a timeout (process killed, no exit code), is classified `error`;
an `error` result never aborts the tally of the remaining results. -/
theorem c5_decode_classification :
    (∀ e : ExecError, effectiveExitCode e = some 2 →
      classifyDecode (.error e) = .skipped) ∧
    (∀ e : ExecError, effectiveExitCode e ≠ some 2 →
      classifyDecode (.error e) = .error) ∧
    (∀ e : ExecError, e.killed = true → e.code = none → e.exitCode = none →
      classifyDecode (.error e) = .error) ∧
    (∀ l₁ l₂ : List DecodeStatus,
      tally (l₁ ++ .skipped :: l₂) =
        ((tally (l₁ ++ l₂)).1, (tally (l₁ ++ l₂)).2.1 + 1,
          (tally (l₁ ++ l₂)).2.2)) ∧
    (∀ l₁ l₂ : List DecodeStatus,
      tally (l₁ ++ .error :: l₂) =
        ((tally (l₁ ++ l₂)).1, (tally (l₁ ++ l₂)).2.1,
          (tally (l₁ ++ l₂)).2.2 + 1)) ∧
    (∀ (allFiles : List String) (decode : String → DecodeStatus),
      (∀ f ∈ filesToProcess allFiles, decode f ≠ .success) →
      runResolver allFiles decode = allFiles) := by
  refine ⟨?_, ?_, ?_, ?_, ?_, ?_⟩
  · intro e h
    simp [classifyDecode, h]
  · intro e h
    simp [classifyDecode, h]
  · intro e hk hc he
    simp [classifyDecode, effectiveExitCode, hk, hc, he, jsOrNum]
  · intro l₁ l₂
    simp [tally_eq_counts, List.countP_append, List.countP_cons]
    omega
  · intro l₁ l₂
    simp [tally_eq_counts, List.countP_append, List.countP_cons]
    omega
  · intro allFiles decode hns
    unfold runResolver
    have hnil : (filesToProcess allFiles).filterMap
        (fun f => if decode f = .success then some (yamlCompanionName f)
          else none) = [] := by
      rw [List.filterMap_eq_nil_iff]
      intro f hf
      rw [if_neg (hns f hf)]
    rw [hnil, List.append_nil]

/-- C5 witness: exit code 2 classifies as skipped; a timeout classifies as
error; a skipped result between a success and an error adds one to the
skipped counter and nothing to the error counter. -/
theorem c5_witness :
    classifyDecode (.error ⟨some 2, none, false, "", ""⟩) =
      DecodeStatus.skipped ∧
    classifyDecode (.error ⟨none, none, true, "", ""⟩) =
      DecodeStatus.error ∧
    tally [.success, .skipped, .error] =
      ((tally [.success, .error]).1, (tally [.success, .error]).2.1 + 1,
        (tally [.success, .error]).2.2) := by
  refine ⟨c5_decode_classification.1 _ (by decide),
    c5_decode_classification.2.2.1 _ rfl rfl rfl,
    c5_decode_classification.2.2.2.1 [.success] [.error]⟩

theorem endsWithYaml_not_isSsz (y : String)
    (h : endsWith y ".ssz_snappy.yaml" = true) : isSszFile y = false := by
  simp [isSszFile, h]

/-- C6 counterexample: a fixture whose decode is skipped (exit code 2)
gets no companion, so a second resolver run re-queues it — the second run
performs one decode invocation, not zero. -/
theorem c6_counterexample :
    filesToProcess
        (runResolver ["a/tests/mainnet/b/post.ssz_snappy"]
          (fun _ => DecodeStatus.skipped)) =
      ["a/tests/mainnet/b/post.ssz_snappy"] ∧
    (filesToProcess ["a/tests/mainnet/b/post.ssz_snappy"]).length = 1 := by
  decide

/-- C6 (amended): the resolver is idempotent once a run fully succeeds —
if every work-set file of the first run decodes successfully (each
companion written, its name carrying the companion suffix), then the
second run's work set is empty: zero decode invocations, every ssz file
being either general-category, or satisfied by its companion, with the
written companions themselves excluded from the ssz enumeration.  (A run
containing skipped or errored decodes re-queues those files, so the
unconditional claim fails.) -/
theorem c6_idempotent_after_success (allFiles : List String)
    (decode : String → DecodeStatus)
    (hsucc : ∀ f ∈ filesToProcess allFiles, decode f = .success)
    (hname : ∀ f ∈ filesToProcess allFiles,
      endsWith (yamlCompanionName f) ".ssz_snappy.yaml" = true) :
    filesToProcess (runResolver allFiles decode) = [] := by
  set added := (filesToProcess allFiles).filterMap
    (fun f => if decode f = .success then some (yamlCompanionName f)
      else none) with hadded
  have hmem_added : ∀ y ∈ added, ∃ f ∈ filesToProcess allFiles,
      y = yamlCompanionName f := by
    intro y hy
    rw [hadded, List.mem_filterMap] at hy
    obtain ⟨f, hf, hsome⟩ := hy
    rw [if_pos (hsucc f hf)] at hsome
    exact ⟨f, hf, (Option.some.inj hsome).symm⟩
  have hfilter_added : added.filter isSszFile = [] := by
    rw [List.filter_eq_nil_iff]
    intro y hy
    obtain ⟨f, hf, rfl⟩ := hmem_added y hy
    simp [endsWithYaml_not_isSsz _ (hname f hf)]
  unfold runResolver
  rw [← hadded]
  unfold filesToProcess
  rw [List.filter_append, hfilter_added, List.append_nil,
    List.filter_eq_nil_iff]
  intro f hf
  rw [List.mem_filter] at hf
  obtain ⟨hfa, hssz⟩ := hf
  by_cases hg : isGeneralPath f
  · simp [hg]
  · by_cases hex : yamlCompanionName f ∈ allFiles
    · simp
      intro _ hnm
      exact absurd hex hnm
    · have hftp : f ∈ filesToProcess allFiles := by
        unfold filesToProcess
        rw [List.mem_filter, List.mem_filter]
        refine ⟨⟨hfa, hssz⟩, ?_⟩
        simp [hg, List.contains, List.elem_iff]
        exact hex
      have hyam : yamlCompanionName f ∈ added := by
        rw [hadded, List.mem_filterMap]
        exact ⟨f, hftp, by rw [if_pos (hsucc f hftp)]⟩
      simp
      intro _ _
      exact hyam

/-- C6 witness: a tree whose single work-set file decodes successfully has
an empty work set on the second run. -/
theorem c6_witness :
    filesToProcess
        (runResolver ["a/tests/mainnet/b/post.ssz_snappy"]
          (fun _ => DecodeStatus.success)) = [] :=
  c6_idempotent_after_success _ _ (by decide) (by decide)

/-! ### main.js — `onTestSelect` progressive file pairing

```js
const sszWithYaml = new Set();
for (const filePromise of filePromises) {
  if (name.endsWith('.ssz_snappy.yaml'))
    sszWithYaml.add(name.replace('.yaml', ''));
}
// per arrival (the handler first records the file in loadedFileMap):
if (fileData.name.endsWith('.ssz_snappy.yaml')) {
  const sszName = fileData.name.replace('.yaml', '');
  if (loadedFileMap.has(sszName)) updateFileBox(sszName, sszFile, fileData);
} else if (sszWithYaml.has(fileData.name)) {
  const yamlData = loadedFileMap.get(fileData.name + '.yaml');
  if (yamlData) updateFileBox(fileData.name, fileData, yamlData);
} else updateFileBox(fileData.name, fileData);
```

`updateFileBox` itself is imported from the test-viewer module but is not
present in the sources; per the spec it updates the named display unit in
place (never creating a second unit), rendering the raw view and, when a
companion is supplied, a raw/decoded toggle.  An arrival is therefore
modelled by the update call it emits, if any.
-/

/-- One `updateFileBox` invocation: the display unit it targets and which
of the two views it carries. -/
structure UpdateCall where
  box : String
  hasPrimary : Bool
  hasYaml : Bool
deriving DecidableEq, Repr

/-- The names collected into `sszWithYaml` (as a list; only membership is
queried). -/
def sszWithYaml (files : List String) : List String :=
  (files.filter (fun n => endsWith n ".ssz_snappy.yaml")).map
    (fun n => jsReplace n ".yaml" "")

/-- The update call emitted when `name` arrives, `loaded` being the set of
names already recorded in `loadedFileMap` (including `name` itself, which
the handler records first). -/
def processArrival (files loaded : List String) (name : String) :
    Option UpdateCall :=
  if endsWith name ".ssz_snappy.yaml" then
    let sszName := jsReplace name ".yaml" ""
    if loaded.contains sszName then some ⟨sszName, true, true⟩ else none
  else
    if (sszWithYaml files).contains name then
      if loaded.contains (name ++ ".yaml") then some ⟨name, true, true⟩
      else none
    else
      some ⟨name, true, false⟩

def runArrivalsAux (files loaded : List String) :
    List String → List UpdateCall
  | [] => []
  | n :: rest =>
    match processArrival files (loaded ++ [n]) n with
    | some call => call :: runArrivalsAux files (loaded ++ [n]) rest
    | none => runArrivalsAux files (loaded ++ [n]) rest

/-- The sequence of `updateFileBox` calls emitted when the files of a test
case arrive in the given order. -/
def runArrivals (files order : List String) : List UpdateCall :=
  runArrivalsAux files [] order

/-- C4 counterexample: whichever member of the pair arrives first emits
*no* update call — it does not render standalone; its display unit stays
in the skeleton state until the partner arrives. -/
theorem c4_counterexample :
    runArrivals ["proof.ssz_snappy", "proof.ssz_snappy.yaml"]
        ["proof.ssz_snappy"] = [] ∧
    runArrivals ["proof.ssz_snappy", "proof.ssz_snappy.yaml"]
        ["proof.ssz_snappy.yaml"] = [] := by
  decide

/-- C4 (amended): for the pair `proof.ssz_snappy` / `proof.ssz_snappy.yaml`
under both possible arrival orders, the first arrival renders nothing
(the unit stays in its skeleton state) and the second arrival triggers
exactly one update, of the binary file's single display unit, carrying
both the raw and the decoded view — never a duplicate unit; in particular
with the YAML first the result is still one unit for `proof.ssz_snappy`
with both views.  A file without a companion updates its unit immediately
on arrival. -/
theorem c4_pairing_spec :
    runArrivals ["proof.ssz_snappy", "proof.ssz_snappy.yaml"]
        ["proof.ssz_snappy.yaml", "proof.ssz_snappy"] =
      [⟨"proof.ssz_snappy", true, true⟩] ∧
    runArrivals ["proof.ssz_snappy", "proof.ssz_snappy.yaml"]
        ["proof.ssz_snappy", "proof.ssz_snappy.yaml"] =
      [⟨"proof.ssz_snappy", true, true⟩] ∧
    runArrivals ["data.yaml"] ["data.yaml"] =
      [⟨"data.yaml", true, false⟩] := by
  decide

/-! ### tree.js — `filterTree` / `showNodeAndAncestors`

The DOM tree of `.tree-node` elements is embedded as a binary-cell forest
(`cons data children rest`).  Each node carries the dataset attributes
written by `createTreeNode` (`label`, and `preset` / `fork` / `runner`
when present), its `style.display` state and the `collapsed` class of its
children container.  The three selection sets are contractually
single-select, so each is an `Option String` (`none` ↔ the set is empty).

```js
if (!searchTerm && selectedPresets.size === 0 && selectedForks.size === 0
    && selectedRunners.size === 0) { show all; return; }
hide all;
matching = nodes.filter(node =>
  (!searchTerm || (label && label.includes(searchTerm))) &&
  (selectedPresets.size === 0 || (preset && selectedPresets.has(preset))) &&
  (selectedForks.size === 0 || (fork && selectedForks.has(fork))) &&
  (selectedRunners.size === 0 || (runner && selectedRunners.has(runner))));
matching.forEach(showNodeAndAncestors);
```

`showNodeAndAncestors` walks from the node up through its ancestors,
setting `display` and removing `collapsed` from each non-empty children
container it passes.  Hence a node ends up displayed iff it matches or
some descendant matches, and a non-leaf node's children container ends up
collapsed iff it was collapsed before and neither the node nor any
descendant matches.
-/

structure NodeData where
  label : String
  preset : Option String
  fork : Option String
  runner : Option String
  display : Bool
  collapsed : Bool
deriving DecidableEq, Repr

inductive Forest where
  | nil : Forest
  | cons (d : NodeData) (children : Forest) (rest : Forest) : Forest
deriving DecidableEq, Repr

structure FilterState where
  searchTerm : String
  selPreset : Option String
  selFork : Option String
  selRunner : Option String
deriving DecidableEq, Repr

def hasActive (st : FilterState) : Bool :=
  !(decide (st.searchTerm = "") && decide (st.selPreset = none) &&
    decide (st.selFork = none) && decide (st.selRunner = none))

/-- `selectedXs.size === 0 || (tag && selectedXs.has(tag))`. -/
def facetMatches (sel tag : Option String) : Bool :=
  match sel with
  | none => true
  | some v =>
    match tag with
    | none => false
    | some t => decide (t = v)

def nodeMatches (st : FilterState) (d : NodeData) : Bool :=
  (decide (st.searchTerm = "") || jsIncludes d.label st.searchTerm) &&
  facetMatches st.selPreset d.preset &&
  facetMatches st.selFork d.fork &&
  facetMatches st.selRunner d.runner

def anyMatch (st : FilterState) : Forest → Bool
  | .nil => false
  | .cons d c r => nodeMatches st d || anyMatch st c || anyMatch st r

/-- The net effect of hide-all followed by `showNodeAndAncestors` on every
matching node. -/
def applyFilter (st : FilterState) : Forest → Forest
  | .nil => .nil
  | .cons d c r =>
    let vis := nodeMatches st d || anyMatch st c
    let newCollapsed :=
      match c with
      | .nil => d.collapsed
      | .cons _ _ _ => d.collapsed && !vis
    .cons { d with display := vis, collapsed := newCollapsed }
      (applyFilter st c) (applyFilter st r)

/-- The early-return branch: every node displayed, collapse state kept. -/
def showAll : Forest → Forest
  | .nil => .nil
  | .cons d c r => .cons { d with display := true } (showAll c) (showAll r)

def filterTree (st : FilterState) (f : Forest) : Forest :=
  if hasActive st then applyFilter st f else showAll f

/-! Node addresses in a forest. -/

inductive FPath where
  | stop : FPath
  | inChild (p : FPath) : FPath
  | inRest (p : FPath) : FPath
deriving DecidableEq, Repr

def getCell : Forest → FPath → Option (NodeData × Forest × Forest)
  | .nil, _ => none
  | .cons d c r, .stop => some (d, c, r)
  | .cons _ c _, .inChild p => getCell c p
  | .cons _ _ r, .inRest p => getCell r p

/-- `graft p q` addresses the node reached by descending to `p` and then
continuing with `q` inside `p`'s children: the strict descendants of `p`
are exactly the nodes at `graft p q`. -/
def graft : FPath → FPath → FPath
  | .stop, q => .inChild q
  | .inChild p, q => .inChild (graft p q)
  | .inRest p, q => .inRest (graft p q)

def displayAt (st : FilterState) (f : Forest) (p : FPath) : Bool :=
  match getCell (filterTree st f) p with
  | some (d, _, _) => d.display
  | none => false

def collapsedAt (st : FilterState) (f : Forest) (p : FPath) : Bool :=
  match getCell (filterTree st f) p with
  | some (d, _, _) => d.collapsed
  | none => true

def matchesAt (st : FilterState) (f : Forest) (p : FPath) : Bool :=
  match getCell f p with
  | some (d, _, _) => nodeMatches st d
  | none => false

def isLeafAt (f : Forest) (p : FPath) : Bool :=
  match getCell f p with
  | some (_, .nil, _) => true
  | _ => false

def leafCount : Forest → Nat
  | .nil => 0
  | .cons _ c r =>
    (match c with | .nil => 1 | .cons _ _ _ => 0) + leafCount c + leafCount r

/-- The state with only the free-text facet of `st` active. -/
def searchOnly (st : FilterState) : FilterState := ⟨st.searchTerm, none, none, none⟩

def presetOnly (st : FilterState) : FilterState := ⟨"", st.selPreset, none, none⟩

def forkOnly (st : FilterState) : FilterState := ⟨"", none, st.selFork, none⟩

def runnerOnly (st : FilterState) : FilterState := ⟨"", none, none, st.selRunner⟩

/-- `anyMatch` of the children forest of the node at `p`. -/
def childAnyAt (st : FilterState) (f : Forest) (p : FPath) : Bool :=
  match getCell f p with
  | some (_, c, _) => anyMatch st c
  | none => false

theorem getCell_applyFilter (st : FilterState) (f : Forest) (p : FPath) :
    getCell (applyFilter st f) p =
      (getCell f p).map (fun cell =>
        ({ cell.1 with
            display := nodeMatches st cell.1 || anyMatch st cell.2.1,
            collapsed :=
              match cell.2.1 with
              | .nil => cell.1.collapsed
              | .cons _ _ _ => cell.1.collapsed &&
                  !(nodeMatches st cell.1 || anyMatch st cell.2.1) },
          applyFilter st cell.2.1, applyFilter st cell.2.2)) := by
  induction p generalizing f with
  | stop => cases f <;> simp [applyFilter, getCell]
  | inChild p ih =>
    cases f with
    | nil => simp [applyFilter, getCell]
    | cons d c r => simpa [applyFilter, getCell] using ih c
  | inRest p ih =>
    cases f with
    | nil => simp [applyFilter, getCell]
    | cons d c r => simpa [applyFilter, getCell] using ih r

theorem getCell_showAll (f : Forest) (p : FPath) :
    getCell (showAll f) p =
      (getCell f p).map (fun cell =>
        ({ cell.1 with display := true }, showAll cell.2.1,
          showAll cell.2.2)) := by
  induction p generalizing f with
  | stop => cases f <;> simp [showAll, getCell]
  | inChild p ih =>
    cases f with
    | nil => simp [showAll, getCell]
    | cons d c r => simpa [showAll, getCell] using ih c
  | inRest p ih =>
    cases f with
    | nil => simp [showAll, getCell]
    | cons d c r => simpa [showAll, getCell] using ih r

theorem getCell_graft (f : Forest) (p q : FPath) :
    getCell f (graft p q) =
      (getCell f p).bind (fun cell => getCell cell.2.1 q) := by
  induction p generalizing f with
  | stop => cases f <;> simp [graft, getCell]
  | inChild p ih =>
    cases f with
    | nil => simp [graft, getCell]
    | cons d c r => simpa [graft, getCell] using ih c
  | inRest p ih =>
    cases f with
    | nil => simp [graft, getCell]
    | cons d c r => simpa [graft, getCell] using ih r

theorem anyMatch_iff (st : FilterState) (f : Forest) :
    anyMatch st f = true ↔ ∃ p, matchesAt st f p = true := by
  induction f with
  | nil =>
    simp only [anyMatch, Bool.false_eq_true, false_iff, not_exists]
    intro p
    simp [matchesAt, getCell]
  | cons d c r ihc ihr =>
    simp only [anyMatch, Bool.or_eq_true]
    constructor
    · rintro ((h | h) | h)
      · exact ⟨.stop, by simpa [matchesAt, getCell] using h⟩
      · obtain ⟨q, hq⟩ := ihc.mp h
        exact ⟨.inChild q, by simpa [matchesAt, getCell] using hq⟩
      · obtain ⟨q, hq⟩ := ihr.mp h
        exact ⟨.inRest q, by simpa [matchesAt, getCell] using hq⟩
    · rintro ⟨p, hp⟩
      cases p with
      | stop => exact Or.inl (Or.inl (by simpa [matchesAt, getCell] using hp))
      | inChild q =>
        exact Or.inl (Or.inr (ihc.mpr ⟨q, by simpa [matchesAt, getCell] using hp⟩))
      | inRest q =>
        exact Or.inr (ihr.mpr ⟨q, by simpa [matchesAt, getCell] using hp⟩)

theorem displayAt_active (st : FilterState) (f : Forest) (p : FPath)
    (h : hasActive st = true) :
    displayAt st f p = (matchesAt st f p || childAnyAt st f p) := by
  unfold displayAt filterTree
  rw [if_pos h, getCell_applyFilter]
  cases hc : getCell f p with
  | none => simp [matchesAt, childAnyAt, hc]
  | some cell =>
    obtain ⟨d, c, r⟩ := cell
    simp [matchesAt, childAnyAt, hc]

theorem displayAt_inactive (st : FilterState) (f : Forest) (p : FPath)
    (h : hasActive st = false) :
    displayAt st f p = (getCell f p).isSome := by
  unfold displayAt filterTree
  rw [if_neg (by simp [h]), getCell_showAll]
  cases hc : getCell f p with
  | none => simp
  | some cell =>
    obtain ⟨d, c, r⟩ := cell
    simp

theorem matchesAt_graft (st : FilterState) (f : Forest) (p q : FPath)
    (d : NodeData) (c r : Forest) (hc : getCell f p = some (d, c, r)) :
    matchesAt st f (graft p q) = matchesAt st c q := by
  unfold matchesAt
  rw [getCell_graft, hc]
  rfl

theorem childAnyAt_iff_descendant (st : FilterState) (f : Forest)
    (p : FPath) :
    childAnyAt st f p = true ↔ ∃ q, matchesAt st f (graft p q) = true := by
  cases hc : getCell f p with
  | none =>
    simp only [childAnyAt, hc, Bool.false_eq_true, false_iff, not_exists]
    intro q
    unfold matchesAt
    rw [getCell_graft, hc]
    simp
  | some cell =>
    obtain ⟨d, c, r⟩ := cell
    simp only [childAnyAt, hc]
    rw [anyMatch_iff]
    constructor
    · rintro ⟨q, hq⟩
      exact ⟨q, by rw [matchesAt_graft st f p q d c r hc]; exact hq⟩
    · rintro ⟨q, hq⟩
      exact ⟨q, by rw [← matchesAt_graft st f p q d c r hc]; exact hq⟩

theorem bool_intersection (e1 a1 e2 a2 e3 a3 e4 a4 : Bool)
    (h1 : e1 = true → a1 = true) (h2 : e2 = true → a2 = true)
    (h3 : e3 = true → a3 = true) (h4 : e4 = true → a4 = true) :
    ((e1 && e2 && e3 && e4) || (a1 && a2 && a3 && a4)) =
      ((e1 || a1) && (e2 || a2) && (e3 || a3) && (e4 || a4)) := by
  revert h1 h2 h3 h4
  cases e1 <;> cases e2 <;> cases e3 <;> cases e4 <;> cases a1 <;> cases a2
    <;> cases a3 <;> cases a4 <;> decide

theorem facetMatches_none (t : Option String) : facetMatches none t = true := rfl

theorem displayAt_leaf_form (st : FilterState) (f : Forest) (p : FPath)
    (d : NodeData) (r : Forest) (hc : getCell f p = some (d, .nil, r)) :
    displayAt st f p = (!hasActive st || nodeMatches st d) := by
  by_cases h : hasActive st = true
  · rw [displayAt_active st f p h, h]
    simp only [matchesAt, childAnyAt, hc]
    simp [anyMatch]
  · have h' : hasActive st = false := by
      revert h
      cases hasActive st <;> simp
    rw [displayAt_inactive st f p h', h', hc]
    simp

theorem graft_assoc (p q q' : FPath) :
    graft (graft p q) q' = graft p (graft q q') := by
  induction p with
  | stop => rfl
  | inChild p ih => simp [graft, ih]
  | inRest p ih => simp [graft, ih]

/-- C1 counterexample: searching for "mainnet" in a standard one-leaf tree
makes the preset node (whose label matches) visible while its unique leaf
stays hidden — so the visible non-leaf set is *not* the set of ancestors
of the visible leaves (which is empty here): a non-leaf node that itself
matches every active predicate is shown even with no visible leaf below
it. -/
theorem c1_counterexample :
    displayAt ⟨"mainnet", none, none, none⟩
        (Forest.cons ⟨"mainnet", some "mainnet", none, none, true, true⟩
          (Forest.cons ⟨"phase0", some "mainnet", some "phase0", none, true, true⟩
            (Forest.cons ⟨"operations", some "mainnet", some "phase0",
                some "operations", true, true⟩
              (Forest.cons ⟨"attestation", some "mainnet", some "phase0",
                  some "operations", true, true⟩
                (Forest.cons ⟨"pyspec_tests", some "mainnet", some "phase0",
                    some "operations", true, true⟩
                  (Forest.cons ⟨"case_0", some "mainnet", some "phase0",
                      some "operations", true, true⟩ .nil .nil)
                  .nil)
                .nil)
              .nil)
            .nil)
          .nil)
        .stop = true ∧
    isLeafAt
        (Forest.cons ⟨"mainnet", some "mainnet", none, none, true, true⟩
          (Forest.cons ⟨"phase0", some "mainnet", some "phase0", none, true, true⟩
            (Forest.cons ⟨"operations", some "mainnet", some "phase0",
                some "operations", true, true⟩
              (Forest.cons ⟨"attestation", some "mainnet", some "phase0",
                  some "operations", true, true⟩
                (Forest.cons ⟨"pyspec_tests", some "mainnet", some "phase0",
                    some "operations", true, true⟩
                  (Forest.cons ⟨"case_0", some "mainnet", some "phase0",
                      some "operations", true, true⟩ .nil .nil)
                  .nil)
                .nil)
              .nil)
            .nil)
          .nil)
        (.inChild (.inChild (.inChild (.inChild (.inChild .stop))))) = true ∧
    leafCount
        (Forest.cons ⟨"mainnet", some "mainnet", none, none, true, true⟩
          (Forest.cons ⟨"phase0", some "mainnet", some "phase0", none, true, true⟩
            (Forest.cons ⟨"operations", some "mainnet", some "phase0",
                some "operations", true, true⟩
              (Forest.cons ⟨"attestation", some "mainnet", some "phase0",
                  some "operations", true, true⟩
                (Forest.cons ⟨"pyspec_tests", some "mainnet", some "phase0",
                    some "operations", true, true⟩
                  (Forest.cons ⟨"case_0", some "mainnet", some "phase0",
                      some "operations", true, true⟩ .nil .nil)
                  .nil)
                .nil)
              .nil)
            .nil)
          .nil) = 1 ∧
    displayAt ⟨"mainnet", none, none, none⟩
        (Forest.cons ⟨"mainnet", some "mainnet", none, none, true, true⟩
          (Forest.cons ⟨"phase0", some "mainnet", some "phase0", none, true, true⟩
            (Forest.cons ⟨"operations", some "mainnet", some "phase0",
                some "operations", true, true⟩
              (Forest.cons ⟨"attestation", some "mainnet", some "phase0",
                  some "operations", true, true⟩
                (Forest.cons ⟨"pyspec_tests", some "mainnet", some "phase0",
                    some "operations", true, true⟩
                  (Forest.cons ⟨"case_0", some "mainnet", some "phase0",
                      some "operations", true, true⟩ .nil .nil)
                  .nil)
                .nil)
              .nil)
            .nil)
          .nil)
        (.inChild (.inChild (.inChild (.inChild (.inChild .stop))))) =
      false := by
  decide

/-- C1 (amended): for every combination of active facet selections (at
most one preset, one fork, one runner) and free-text term, (i) a leaf is
visible iff it is visible under each facet of the state taken alone — the
leaf intersection law as claimed; (ii) a node (leaf or not) is visible iff
it matches all active predicates itself or some strict descendant does —
so the visible non-leaves are the ancestors of visible leaves *together
with* non-leaf nodes that match on their own, not the ancestor set alone;
(iii) every strict ancestor of a visible node is visible and its
previously-collapsed children container is force-expanded. -/
theorem c1_filterTree_spec :
    (∀ (st : FilterState) (f : Forest) (p : FPath), isLeafAt f p = true →
      displayAt st f p =
        (displayAt (searchOnly st) f p && displayAt (presetOnly st) f p &&
          displayAt (forkOnly st) f p && displayAt (runnerOnly st) f p)) ∧
    (∀ (st : FilterState) (f : Forest) (p : FPath), hasActive st = true →
      (displayAt st f p = true ↔
        (matchesAt st f p = true ∨ ∃ q, matchesAt st f (graft p q) = true))) ∧
    (∀ (st : FilterState) (f : Forest) (p q : FPath), hasActive st = true →
      displayAt st f (graft p q) = true →
      displayAt st f p = true ∧ collapsedAt st f p = false) := by
  refine ⟨?_, ?_, ?_⟩
  · intro st f p hleaf
    unfold isLeafAt at hleaf
    cases hc : getCell f p with
    | none =>
      rw [hc] at hleaf
      simp at hleaf
    | some cell =>
      obtain ⟨d, c, r⟩ := cell
      rw [hc] at hleaf
      cases c with
      | cons d' c' r' => simp at hleaf
      | nil =>
        rw [displayAt_leaf_form st f p d r hc,
          displayAt_leaf_form (searchOnly st) f p d r hc,
          displayAt_leaf_form (presetOnly st) f p d r hc,
          displayAt_leaf_form (forkOnly st) f p d r hc,
          displayAt_leaf_form (runnerOnly st) f p d r hc]
        have h1 : decide (st.searchTerm = "") = true →
            (decide (st.searchTerm = "") ||
              jsIncludes d.label st.searchTerm) = true := by
          intro h
          rw [h]
          simp
        have h2 : decide (st.selPreset = none) = true →
            facetMatches st.selPreset d.preset = true := by
          intro h
          rw [of_decide_eq_true h]
          rfl
        have h3 : decide (st.selFork = none) = true →
            facetMatches st.selFork d.fork = true := by
          intro h
          rw [of_decide_eq_true h]
          rfl
        have h4 : decide (st.selRunner = none) = true →
            facetMatches st.selRunner d.runner = true := by
          intro h
          rw [of_decide_eq_true h]
          rfl
        have key := bool_intersection (decide (st.searchTerm = ""))
          (decide (st.searchTerm = "") || jsIncludes d.label st.searchTerm)
          (decide (st.selPreset = none)) (facetMatches st.selPreset d.preset)
          (decide (st.selFork = none)) (facetMatches st.selFork d.fork)
          (decide (st.selRunner = none)) (facetMatches st.selRunner d.runner)
          h1 h2 h3 h4
        simp only [hasActive, nodeMatches, searchOnly, presetOnly, forkOnly,
          runnerOnly, Bool.not_not, eq_self_iff_true, decide_True,
          facetMatches_none, Bool.and_true, Bool.true_and]
        exact key
  · intro st f p hact
    rw [displayAt_active st f p hact, Bool.or_eq_true]
    exact or_congr Iff.rfl (childAnyAt_iff_descendant st f p)
  · intro st f p q hact hdisp
    cases hg : getCell f (graft p q) with
    | none =>
      exfalso
      unfold displayAt filterTree at hdisp
      rw [if_pos hact, getCell_applyFilter, hg] at hdisp
      simp at hdisp
    | some cellg =>
      rw [getCell_graft] at hg
      cases hp : getCell f p with
      | none =>
        rw [hp] at hg
        simp at hg
      | some cell =>
        obtain ⟨d, c, r⟩ := cell
        rw [hp] at hg
        have hg' : getCell c q = some cellg := hg
        have hAny : anyMatch st c = true := by
          rw [displayAt_active st f (graft p q) hact, Bool.or_eq_true]
            at hdisp
          rcases hdisp with hm | hca
          · rw [matchesAt_graft st f p q d c r hp] at hm
            exact (anyMatch_iff st c).mpr ⟨q, hm⟩
          · obtain ⟨q', hq'⟩ :=
              (childAnyAt_iff_descendant st f (graft p q)).mp hca
            rw [graft_assoc, matchesAt_graft st f p (graft q q') d c r hp]
              at hq'
            exact (anyMatch_iff st c).mpr ⟨graft q q', hq'⟩
        constructor
        · rw [displayAt_active st f p hact, Bool.or_eq_true]
          right
          unfold childAnyAt
          rw [hp]
          exact hAny
        · unfold collapsedAt filterTree
          rw [if_pos hact, getCell_applyFilter, hp]
          cases c with
          | nil => simp [getCell] at hg'
          | cons d' c' r' => simp [hAny]

/-- C1 witness: in the counterexample tree, the leaf intersection law and
the ancestor force-expansion apply; with an active preset facet the leaf
`case_0` under `mainnet` is visible exactly when each facet taken alone
shows it, and its visible leaf forces its collapsed preset ancestor
expanded. -/
theorem c1_witness :
    displayAt ⟨"", some "mainnet", none, none⟩
        (Forest.cons ⟨"mainnet", some "mainnet", none, none, true, true⟩
          (Forest.cons ⟨"case_0", some "mainnet", some "phase0",
              some "operations", true, true⟩ .nil .nil)
          .nil)
        (.inChild .stop) =
      (displayAt (searchOnly ⟨"", some "mainnet", none, none⟩)
          (Forest.cons ⟨"mainnet", some "mainnet", none, none, true, true⟩
            (Forest.cons ⟨"case_0", some "mainnet", some "phase0",
                some "operations", true, true⟩ .nil .nil)
            .nil)
          (.inChild .stop) &&
        displayAt (presetOnly ⟨"", some "mainnet", none, none⟩)
          (Forest.cons ⟨"mainnet", some "mainnet", none, none, true, true⟩
            (Forest.cons ⟨"case_0", some "mainnet", some "phase0",
                some "operations", true, true⟩ .nil .nil)
            .nil)
          (.inChild .stop) &&
        displayAt (forkOnly ⟨"", some "mainnet", none, none⟩)
          (Forest.cons ⟨"mainnet", some "mainnet", none, none, true, true⟩
            (Forest.cons ⟨"case_0", some "mainnet", some "phase0",
                some "operations", true, true⟩ .nil .nil)
            .nil)
          (.inChild .stop) &&
        displayAt (runnerOnly ⟨"", some "mainnet", none, none⟩)
          (Forest.cons ⟨"mainnet", some "mainnet", none, none, true, true⟩
            (Forest.cons ⟨"case_0", some "mainnet", some "phase0",
                some "operations", true, true⟩ .nil .nil)
            .nil)
          (.inChild .stop)) ∧
    (displayAt ⟨"", some "mainnet", none, none⟩
        (Forest.cons ⟨"mainnet", some "mainnet", none, none, true, true⟩
          (Forest.cons ⟨"case_0", some "mainnet", some "phase0",
              some "operations", true, true⟩ .nil .nil)
          .nil)
        .stop = true ∧
      collapsedAt ⟨"", some "mainnet", none, none⟩
        (Forest.cons ⟨"mainnet", some "mainnet", none, none, true, true⟩
          (Forest.cons ⟨"case_0", some "mainnet", some "phase0",
              some "operations", true, true⟩ .nil .nil)
          .nil)
        .stop = false) := by
  constructor
  · exact c1_filterTree_spec.1 ⟨"", some "mainnet", none, none⟩ _
      (.inChild .stop) (by decide)
  · exact c1_filterTree_spec.2.2 ⟨"", some "mainnet", none, none⟩ _
      .stop .stop (by decide) (by decide)

end RefViewer
